import Mathlib

/-!
Shallow embedding of neomodel/sync_/match.py (the query-compilation core:
operator tables, filter/operator translation, placeholder registry,
relationship-path resolution, AST construction and statement rendering,
and the NodeSet terminal operations).

Python strings are modelled as Lean `String`; all operations on them are
defined at the character-list level so that every definition is executable
by kernel reduction.  Python `None` for optional fields is modelled with
`Option`; Python truthiness of the various field types is modelled by
explicit helper functions.  The database driver, the property descriptors
and the Q-tree class of neomodel/match_q.py are collaborators outside
src/ and are modelled at their interface boundary (see the doc comments
on the corresponding definitions).
-/

/-! ### Python string primitives -/

/-- Model of Python str.lower (character-wise lowering). -/
def pyLower (s : String) : String := String.mk (s.data.map Char.toLower)

/-- Helper for `pySplitUU`: split a character list on the separator "__",
left to right, non-overlapping, exactly like Python str.split("__"). -/
def splitUU : List Char → List Char → List (List Char)
  | [], acc => [acc.reverse]
  | [c], acc => [(c :: acc).reverse]
  | c1 :: c2 :: cs, acc =>
      if c1 = '_' ∧ c2 = '_' then acc.reverse :: splitUU cs []
      else splitUU (c2 :: cs) (c1 :: acc)

/-- Model of Python s.split("__") (also of rsplit("__"): for a
non-overlapping multi-character separator both produce the same list). -/
def pySplitUU (s : String) : List String := (splitUU s.data []).map String.mk

/-- Model of Python str(n) for a non-negative int: most-significant-first
decimal digits, with "0" for zero.  Defined with fuel so that it is
structurally recursive (n is always a sufficient amount of fuel). -/
def natStrAux : Nat → Nat → List Char → List Char
  | 0, _, acc => acc
  | fuel + 1, n, acc => if n = 0 then acc else natStrAux fuel (n / 10) (Nat.digitChar (n % 10) :: acc)

/-- Model of Python str(n) on natural numbers. -/
def natStr (n : Nat) : String := if n = 0 then "0" else String.mk (natStrAux n n [])

/-- Model of Python f-string rendering of an optional string field
(f-strings render None as "None"). -/
def pyStr (o : Option String) : String := o.getD "None"

/-- Truthiness of a Python string. -/
def strTruthy (s : String) : Bool := s ≠ ""

/-- Truthiness of a Python attribute holding None or a string. -/
def optStrTruthy : Option String → Bool
  | none => false
  | some s => s ≠ ""

/-- Truthiness of a Python attribute holding None or an int (0 is falsy). -/
def optNatTruthy : Option Nat → Bool
  | none => false
  | some n => n ≠ 0

/-! ### Values

Raw caller-supplied filter values (Python objects) and deflated wire
values.  Only the shapes that the translation code inspects are
distinguished; `nodesetV` stands for a NodeSet instance and `otherV` for
any other object. -/

inductive PValue where
  | str : String → PValue
  | int : Int → PValue
  | bool : Bool → PValue
  | list : List PValue → PValue
  | tuple : List PValue → PValue
  | nodesetV : PValue
  | otherV : String → PValue

inductive DValue where
  | str : String → DValue
  | int : Int → DValue
  | list : List DValue → DValue
  | noneD : DValue

/-- Modelled from the spec: a property descriptor of the object-model
collaborator (neomodel/properties.py is not under src/).  Per spec section 6
a descriptor exposes deflate, whether it is a multi-valued (array)
property, whether it is an alias to another property, and its storage
name (get_db_property_name falls back to the declared name). -/
structure PropDesc where
  deflate : PValue → DValue
  isArray : Bool := false
  aliasTo : Option String := none
  dbProperty : Option String := none

/-- Model of Property.get_db_property_name(prop): the storage name if one
was declared, otherwise the declared name. -/
def getDbPropertyName (p : PropDesc) (prop : String) : String := p.dbProperty.getD prop

/-! ### Python errors raised by the translation code -/

inductive PyErr where
  | valueError : String → PyErr
  | keyError : String → PyErr
  | attributeError : String → PyErr
  | notImplementedError : String → PyErr
deriving DecidableEq, Repr

/-! ### Operator tables (match.py lines 151-196) -/

def _SPECIAL_OPERATOR_IN : String := "IN"

def _SPECIAL_OPERATOR_ARRAY_IN : String := "any(x IN \x7bident\x7d.\x7bprop\x7d WHERE x IN \x7bval\x7d)"

def _SPECIAL_OPERATOR_INSENSITIVE : String := "(?i)"

def _SPECIAL_OPERATOR_ISNULL : String := "IS NULL"

def _SPECIAL_OPERATOR_ISNOTNULL : String := "IS NOT NULL"

def _SPECIAL_OPERATOR_REGEX : String := "=~"

def _UNARY_OPERATORS : List String := [_SPECIAL_OPERATOR_ISNULL, _SPECIAL_OPERATOR_ISNOTNULL]

def _REGEX_INSESITIVE : String := _SPECIAL_OPERATOR_INSENSITIVE ++ "\x7b\x7d"

def _REGEX_CONTAINS : String := ".*\x7b\x7d.*"

def _REGEX_STARTSWITH : String := "\x7b\x7d.*"

def _REGEX_ENDSWITH : String := ".*\x7b\x7d"

/-- Table of the regex operations that require escaping (the dict is
modelled as an association list in insertion order). -/
def _STRING_REGEX_OPERATOR_TABLE : List (String × String) :=
  [("iexact", _REGEX_INSESITIVE),
   ("contains", _REGEX_CONTAINS),
   ("icontains", _SPECIAL_OPERATOR_INSENSITIVE ++ _REGEX_CONTAINS),
   ("startswith", _REGEX_STARTSWITH),
   ("istartswith", _SPECIAL_OPERATOR_INSENSITIVE ++ _REGEX_STARTSWITH),
   ("endswith", _REGEX_ENDSWITH),
   ("iendswith", _SPECIAL_OPERATOR_INSENSITIVE ++ _REGEX_ENDSWITH)]

/-- Table of all regex operations ("regex operations that do not require
escaping" updated with the string table, as in the source). -/
def _REGEX_OPERATOR_TABLE : List (String × String) :=
  [("iregex", _REGEX_INSESITIVE)] ++ _STRING_REGEX_OPERATOR_TABLE

/-- Table of all supported operators. -/
def OPERATOR_TABLE : List (String × String) :=
  [("lt", "<"), ("gt", ">"), ("lte", "<="), ("gte", ">="), ("ne", "<>"),
   ("in", _SPECIAL_OPERATOR_IN), ("isnull", _SPECIAL_OPERATOR_ISNULL),
   ("regex", _SPECIAL_OPERATOR_REGEX), ("exact", "=")] ++ _REGEX_OPERATOR_TABLE

/-- Model of Python dict lookup on an association list. -/
def alookup (l : List (String × α)) (k : String) : Option α :=
  (l.find? (fun kv => kv.1 = k)).map Prod.snd

/-- Model of Python dict values() on an association list. -/
def avalues (l : List (String × α)) : List α := l.map Prod.snd

/-- Model of Python dict assignment d[k] = v on an association list:
replace the binding in place if the key exists (association lists built
with aset bind each key at most once), else append. -/
def aset : List (String × α) → String → α → List (String × α)
  | [], k, v => [(k, v)]
  | kv :: rest, k, v => if kv.1 = k then (k, v) :: rest else kv :: aset rest k v

/-! ### Regex escaping (Python re.escape, used by
transform_regex_operator_to_filter) -/

/-- Characters escaped by Python re.escape (3.7+ behaviour: only
characters with special meaning in a regular expression). -/
def reSpecialChars : List Char :=
  ['(', ')', '[', ']', '\x7b', '\x7d', '?', '*', '+', '-', '|', '^', '$',
   '\\', '.', '&', '~', '#', ' ', '\t', '\n', '\r', '\x0b', '\x0c']

/-- Model of Python re.escape. -/
def reEscape (s : String) : String :=
  String.mk (s.data.flatMap (fun c => if c ∈ reSpecialChars then ['\\', c] else [c]))

/-- Model of template.format(value) for the one-hole regex templates of
the operator tables (each template contains exactly one brace pair). -/
def pyFormat1 (template val : String) : String :=
  String.mk (fmtAux template.data val.data)
where
  fmtAux : List Char → List Char → List Char
    | [], _ => []
    | '\x7b' :: '\x7d' :: rest, v => v ++ fmtAux rest v
    | c :: rest, v => c :: fmtAux rest v

/-! ### Operator/value transforms (match.py lines 260-346) -/

/-- Model of transform_in_operator_to_filter. -/
def transform_in_operator_to_filter (operator filter_key : String) (filter_value : PValue)
    (property_obj : PropDesc) : Except PyErr (String × DValue) :=
  match filter_value with
  | .tuple l =>
      if property_obj.isArray then
        .ok (_SPECIAL_OPERATOR_ARRAY_IN, property_obj.deflate (.tuple l))
      else
        .ok (operator, .list (l.map (fun v => property_obj.deflate v)))
  | .list l =>
      if property_obj.isArray then
        .ok (_SPECIAL_OPERATOR_ARRAY_IN, property_obj.deflate (.list l))
      else
        .ok (operator, .list (l.map (fun v => property_obj.deflate v)))
  | _ => .error (.valueError ("Value must be a tuple or list for IN operation " ++ filter_key))

/-- Model of transform_null_operator_to_filter (the returned deflated
value None is modelled as DValue.noneD). -/
def transform_null_operator_to_filter (filter_key : String) (filter_value : PValue) :
    Except PyErr (String × DValue) :=
  match filter_value with
  | .bool b => .ok (if b then "IS NULL" else "IS NOT NULL", .noneD)
  | _ => .error (.valueError ("Value must be a bool for isnull operation on " ++ filter_key))

/-- Model of transform_regex_operator_to_filter. -/
def transform_regex_operator_to_filter (operator filter_key : String) (filter_value : PValue)
    (property_obj : PropDesc) : Except PyErr (String × DValue) :=
  match property_obj.deflate filter_value with
  | .str s =>
      let s := if operator ∈ avalues _STRING_REGEX_OPERATOR_TABLE then reEscape s else s
      .ok (_SPECIAL_OPERATOR_REGEX, .str (pyFormat1 operator s))
  | _ => .error (.valueError ("Must be a string value for " ++ filter_key))

/-- Model of transform_operator_to_filter. -/
def transform_operator_to_filter (operator filter_key : String) (filter_value : PValue)
    (property_obj : PropDesc) : Except PyErr (String × DValue) :=
  if operator = _SPECIAL_OPERATOR_IN then
    transform_in_operator_to_filter operator filter_key filter_value property_obj
  else if operator = _SPECIAL_OPERATOR_ISNULL then
    transform_null_operator_to_filter filter_key filter_value
  else if operator ∈ avalues _REGEX_OPERATOR_TABLE then
    transform_regex_operator_to_filter operator filter_key filter_value property_obj
  else
    .ok (operator, property_obj.deflate filter_value)

/-! ### Node classes, relationship definitions and the schema collaborator -/

/-- Direction constants from neomodel.util. -/
def OUTGOING : Int := 1

def INCOMING : Int := -1

def EITHER : Int := 0

/-- Model of a StructuredNode class as the traversal/filter code sees it:
its f-string rendering (clsRepr, used in the node-counter keys), its
storage label and its __name__. -/
structure NClass where
  clsRepr : String
  label : String
  name : String
deriving DecidableEq, Repr

/-- Model of a relationship definition dict after lookup_node_class has
filled in node_class. -/
structure RelDef where
  node_class : NClass
  direction : Int
  relation_type : Option String
deriving DecidableEq, Repr

/-- Modelled from the spec: the object-model collaborator (spec section 6).
A class exposes its declared property set (defined_properties(rels=False))
and its declared relationship definitions (getattr + lookup_node_class,
defined_properties(rels=True)); both live outside src/ so they are
supplied as functions. -/
structure Schema where
  rels : NClass → String → Option RelDef
  props : NClass → List (String × PropDesc)

/-! ### process_filter_args (match.py lines 217-257) -/

/-- Loop body of process_filter_args over the kwargs items; `output` is
the accumulated output dict. -/
def process_filter_args_loop (sch : Schema) (cls : NClass) :
    List (String × PValue) → List (String × (String × DValue)) →
    Except PyErr (List (String × (String × DValue)))
  | [], output => .ok output
  | (key, value) :: rest, output =>
      -- prop, operator = key.rsplit("__") when "__" occurs in key (exactly
      -- one split is required, otherwise the unpacking raises); the split
      -- result of length one is the no-"__" case
      let split := pySplitUU key
      let propOp : Except PyErr (String × String) :=
        match split with
        | [p] => .ok (p, "=")
        | [p, o] =>
            match alookup OPERATOR_TABLE o with
            | some op => .ok (p, op)
            | none => .error (.keyError o)
        | _ => .error (.valueError ("too many values to unpack for " ++ key))
      match propOp with
      | .error e => .error e
      | .ok (prop, operator) =>
          match alookup (sch.props cls) prop with
          | none =>
              .error (.valueError ("No such property " ++ prop ++ " on " ++ cls.name ++
                ". Note that Neo4j internals like id or element_id are not allowed for use in this operation."))
          | some property_obj =>
              let step : Except PyErr (String × String × DValue) :=
                match property_obj.aliasTo with
                | some target =>
                    -- alias case: redirect to the canonical property and
                    -- deflate under its rules, keeping the operator as is
                    match alookup (sch.props cls) target with
                    | some canonical => .ok (target, operator, canonical.deflate value)
                    | none => .error (.attributeError target)
                | none =>
                    match transform_operator_to_filter operator key value property_obj with
                    | .error e => .error e
                    | .ok (op2, dv) => .ok (prop, op2, dv)
              match step with
              | .error e => .error e
              | .ok (prop2, op2, dv) =>
                  match alookup (sch.props cls) prop2 with
                  | none => .error (.keyError prop2)
                  | some pd =>
                      let db_property := getDbPropertyName pd prop2
                      process_filter_args_loop sch cls rest (aset output db_property (op2, dv))

/-- Model of process_filter_args. -/
def process_filter_args (sch : Schema) (cls : NClass) (kwargs : List (String × PValue)) :
    Except PyErr (List (String × (String × DValue))) :=
  process_filter_args_loop sch cls kwargs []

/-! ### process_has_args (match.py lines 349-374) -/

/-- Loop body of process_has_args; accumulates the match and dont_match
dicts. -/
def process_has_args_loop (sch : Schema) (cls : NClass) :
    List (String × PValue) → List (String × RelDef) → List (String × RelDef) →
    Except PyErr (List (String × RelDef) × List (String × RelDef))
  | [], m, d => .ok (m, d)
  | (key, value) :: rest, m, d =>
      match sch.rels cls key with
      | none => .error (.valueError ("No such relation " ++ key ++ " defined on a " ++ cls.name))
      | some rd =>
          match value with
          | .bool true => process_has_args_loop sch cls rest (aset m key rd) d
          | .bool false => process_has_args_loop sch cls rest m (aset d key rd)
          | .nodesetV => .error (.notImplementedError "Not implemented yet")
          | _ => .error (.valueError "Expecting True / False / NodeSet got something else")

/-- Model of process_has_args. -/
def process_has_args (sch : Schema) (cls : NClass) (kwargs : List (String × PValue)) :
    Except PyErr (List (String × RelDef) × List (String × RelDef)) :=
  process_has_args_loop sch cls kwargs [] []

/-! ### QueryAST (match.py lines 377-418)

The fields `match` and `where` are Lean keywords so they are embedded as
`matchL` and `whereL`.  The Python field order_by holds None, the string
"r" (random ordering) or a list of strings; it is modelled as an optional
list, the string case as the one-element list.  The field
additional_return is None or a list; QueryBuilder._count sets it to None,
which is modelled as the empty list (both are falsy in every use the
source makes of the field).  result_class and the subgraph tree carry no
information used by the claims and are omitted. -/

structure QueryAST where
  matchL : List String := []
  optional_match : List String := []
  whereL : List String := []
  with_clause : Option String := none
  return_clause : Option String := none
  order_by : Option (List String) := none
  skip : Option Nat := none
  limit : Option Nat := none
  lookup : Option String := none
  additional_return : List String := []
  is_count : Bool := false
deriving DecidableEq, Repr

/-! ### QueryBuilder state (match.py lines 421-432)

with_subgraph is always False in the scenarios the claims cover, so the
subgraph bookkeeping (a pure read of rel_ident/rhs_name, with no effect
on fragments, identifiers or parameters) is not embedded. -/

structure QB where
  ast : QueryAST := {}
  query_params : List (String × DValue) := []
  place_holder_registry : List (String × Nat) := []
  ident_count : Nat := 0
  node_counters : List (String × Nat) := []
  subquery_context : Bool := false

/-- Model of QueryBuilder.create_ident. -/
def create_ident (qb : QB) : QB × String :=
  let qb := { qb with ident_count := qb.ident_count + 1 }
  (qb, "r" ++ natStr qb.ident_count)

/-- Model of QueryBuilder._register_place_holder. -/
def _register_place_holder (qb : QB) (key : String) : QB × String :=
  let n := match alookup qb.place_holder_registry key with
    | some m => m + 1
    | none => 1
  ({ qb with place_holder_registry := aset qb.place_holder_registry key n },
   key ++ "_" ++ natStr n)

/-! ### _rel_helper (match.py lines 15-76) -/

/-- Model of Python sep.join(items). -/
def joinStr (sep : String) : List String → String
  | [] => ""
  | [s] => s
  | s :: rest => s ++ sep ++ joinStr sep rest

/-- Model of _rel_helper.  The lhs[-1] and rhs[-1] last-character tests
are modelled on the character list (the call sites never pass an empty
string, where Python would raise IndexError). -/
def _rel_helper (lhs rhs : String) (ident : Option String)
    (relation_type : Option String) (direction : Option Int)
    (relation_properties : List (String × String)) : String :=
  let rel_props :=
    if relation_properties ≠ [] then
      " \x7b" ++ joinStr ", " (relation_properties.map (fun kv => kv.1 ++ ": " ++ kv.2)) ++ "\x7d"
    else ""
  let rel_def :=
    match relation_type with
    | none => ""
    | some rt =>
        if rt = "*" then "[*]"
        else "[" ++ ident.getD "" ++ ":`" ++ rt ++ "`" ++ rel_props ++ "]"
  let stmt :=
    if direction = some OUTGOING then "-" ++ rel_def ++ "->"
    else if direction = some INCOMING then "<-" ++ rel_def ++ "-"
    else "-" ++ rel_def ++ "-"
  let lhs := if lhs.data.getLast? = some ')' then lhs else "(" ++ lhs ++ ")"
  let rhs := if rhs.data.getLast? = some ')' then rhs else "(" ++ rhs ++ ")"
  lhs ++ stmt ++ rhs

/-! ### The boolean filter tree

Modelled from the spec: the Q/QBase tree of neomodel/match_q.py is not
under src/.  Per spec sections 3 and 4.3 a tree node is either a leaf
(field_operator_key, value) pair or an internal node with an AND/OR
connector, a negation flag and children; a Q object itself is always an
internal node. -/

inductive Connector where
  | andC
  | orC
deriving DecidableEq, Repr

/-- Rendering of the connector constants Q.AND / Q.OR. -/
def Connector.render : Connector → String
  | .andC => "AND"
  | .orC => "OR"

inductive QChild where
  | kv : String → PValue → QChild
  | q : Connector → Bool → List QChild → QChild

/-- Modelled from the spec: a Q object (an internal tree node) is a
connector, a negation flag and a list of children. -/
structure QObj where
  connector : Connector := .andC
  negated : Bool := false
  children : List QChild := []

/-- Modelled from the spec: truthiness of a Q object (a tree with no
children is falsy, so empty filter state adds no where clause). -/
def qTruthy (q : QObj) : Bool := !q.children.isEmpty

/-- Statement rendering for one translated filter entry inside
_parse_q_filters (the body of the for-loop over the entries of one
translated child, lines 657-673); returns the updated builder state and
the statements appended to target. -/
def entriesLoop (ident : String) :
    QB → List (String × (String × DValue)) → List String → QB × List String
  | qb, [], target => (qb, target)
  | qb, (prop, (operator, val)) :: rest, target =>
      if operator ∈ _UNARY_OPERATORS then
        entriesLoop ident qb rest (target ++ [ident ++ "." ++ prop ++ " " ++ operator])
      else
        let (qb, place_holder) := _register_place_holder qb (ident ++ "_" ++ prop)
        let statement :=
          if operator = _SPECIAL_OPERATOR_ARRAY_IN then
            -- operator.format(ident=ident, prop=prop, val=f"${place_holder}")
            -- for the fixed template _SPECIAL_OPERATOR_ARRAY_IN
            "any(x IN " ++ ident ++ "." ++ prop ++ " WHERE x IN $" ++ place_holder ++ ")"
          else
            ident ++ "." ++ prop ++ " " ++ operator ++ " $" ++ place_holder
        let qb := { qb with query_params := aset qb.query_params place_holder val }
        entriesLoop ident qb rest (target ++ [statement])

mutual

/-- Model of QueryBuilder._parse_q_filters on a Q node (connector,
negated flag, children).  Errors propagate as in Python: the builder
mutations made before the raising child persist. -/
def _parse_q_filters (sch : Schema) (source_class : NClass) (ident : String)
    (qb : QB) (connector : Connector) (negated : Bool) (children : List QChild) :
    QB × Except PyErr String :=
  match parseChildrenLoop sch source_class ident qb children [] with
  | (qb, .error e) => (qb, .error e)
  | (qb, .ok target) =>
      let ret := joinStr (" " ++ connector.render ++ " ") target
      (qb, .ok (if negated then "NOT (" ++ ret ++ ")" else ret))

/-- Loop of _parse_q_filters over q.children, accumulating target. -/
def parseChildrenLoop (sch : Schema) (source_class : NClass) (ident : String) :
    QB → List QChild → List String → QB × Except PyErr (List String)
  | qb, [], target => (qb, .ok target)
  | qb, child :: rest, target =>
      match child with
      | .q conn neg cs =>
          match _parse_q_filters sch source_class ident qb conn neg cs with
          | (qb, .error e) => (qb, .error e)
          | (qb, .ok q_childs) =>
              let q_childs := if conn = .orC then "(" ++ q_childs ++ ")" else q_childs
              parseChildrenLoop sch source_class ident qb rest (target ++ [q_childs])
      | .kv k v =>
          match process_filter_args sch source_class [(k, v)] with
          | .error e => (qb, .error e)
          | .ok filters =>
              let (qb, target) := entriesLoop ident qb filters target
              parseChildrenLoop sch source_class ident qb rest target

end

/-- Model of QueryBuilder.build_where_stmt for the q_filters branch (the
only branch reachable from a NodeSet source; the legacy positional
filters branch, lines 687-710, is reached only from Traversal sources and
is outside every claim). -/
def build_where_stmt (sch : Schema) (source_class : NClass) (qb : QB) (ident : String)
    (q_filters : QObj) : QB × Except PyErr Unit :=
  match _parse_q_filters sch source_class ident qb q_filters.connector q_filters.negated q_filters.children with
  | (qb, .error e) => (qb, .error e)
  | (qb, .ok stmts) =>
      if strTruthy stmts then
        ({ qb with ast := { qb.ast with whereL := qb.ast.whereL ++ [stmts] } }, .ok ())
      else (qb, .ok ())

/-! ### build_traversal_from_path (match.py lines 516-587) -/

/-- Model of a relations_to_fetch entry as registered by
_register_relation_to_fetch: the dotted path, the optional flag, the
include_in_return flag and the optional alias. -/
structure Relation where
  path : String
  optional : Bool := false
  include_in_return : Bool := true
  aliasName : Option String := none
deriving DecidableEq, Repr

/-- Model of QueryBuilder._additional_return. -/
def _additional_return (qb : QB) (name : String) : QB :=
  if !(qb.ast.additional_return.contains name) && !(qb.ast.return_clause = some name) then
    { qb with ast := { qb.ast with additional_return := qb.ast.additional_return ++ [name] } }
  else qb

/-- One iteration of the build_traversal_from_path loop (match.py lines
527-581, minus the final append which happens after the loop): resolves
the relationship for this part, assigns the hop identifiers, performs
the additional-return and return-clause bookkeeping, and chains the
relationship pattern; isLast is the index + 1 == len(parts) test of the
alias condition.  Returns the updated builder, the chained pattern so
far, the rhs_name of this hop and the next source class; none when the
part is not a declared relationship (Python: AttributeError). -/
def btfp_step (sch : Schema) (relation : Relation) (part : String) (isLast : Bool)
    (index : Nat) (stmt : String) (source_class_iterator : NClass) (qb : QB) :
    Option (QB × String × String × NClass) :=
  match sch.rels source_class_iterator part with
  | none => none
  | some relationship =>
      let rhs_label := relationship.node_class.label
      let rel_reference := relationship.node_class.clsRepr ++ "_" ++ part
      let cnt := (alookup qb.node_counters rel_reference).getD 0 + 1
      let qb := { qb with node_counters := aset qb.node_counters rel_reference cnt }
      let rhs_name :=
        if isLast && relation.aliasName.isSome then relation.aliasName.getD ""
        else pyLower rhs_label ++ "_" ++ part ++ "_" ++ natStr cnt
      let rhs_ident := rhs_name ++ ":" ++ rhs_label
      let qb := if relation.include_in_return then _additional_return qb rhs_name else qb
      let (qb, lhs_ident) :=
        if stmt = "" then
          let lhs_label := source_class_iterator.label
          let lhs_name := pyLower lhs_label
          let lhs_ident := lhs_name ++ ":" ++ lhs_label
          if index = 0 then
            -- the first hop wires the primary node into the return
            -- clause so that _contains() works as usual
            let qb := { qb with ast := { qb.ast with return_clause := some lhs_name } }
            (qb, if qb.subquery_context then lhs_name else lhs_ident)
          else
            (if relation.include_in_return then _additional_return qb lhs_name else qb, lhs_ident)
        else (qb, stmt)
      let (qb, rel_ident) := create_ident qb
      let qb := if relation.include_in_return then _additional_return qb rel_ident else qb
      let stmt := _rel_helper lhs_ident rhs_ident (some rel_ident)
                    relationship.relation_type (some relationship.direction) []
      some (qb, stmt, rhs_name, relationship.node_class)

/-- Loop body of build_traversal_from_path over the path parts.  The
final parameter threads the rhs_name of the previous iteration (the
function returns the last one). -/
def build_traversal_from_path_loop (sch : Schema) (relation : Relation) :
    List String → Nat → String → NClass → QB → String → Option (QB × String)
  | [], _, stmt, _, qb, rhs_name =>
      -- after the loop the chained pattern is appended once, to
      -- optional_match for an optional relation and to match otherwise
      let qb :=
        if relation.optional then
          { qb with ast := { qb.ast with optional_match := qb.ast.optional_match ++ [stmt] } }
        else
          { qb with ast := { qb.ast with matchL := qb.ast.matchL ++ [stmt] } }
      some (qb, rhs_name)
  | part :: rest, index, stmt, source_class_iterator, qb, _ =>
      match btfp_step sch relation part rest.isEmpty index stmt source_class_iterator qb with
      | none => none
      | some (qb, stmt, rhs_name, next_source) =>
          build_traversal_from_path_loop sch relation rest (index + 1) stmt next_source qb rhs_name

/-- Model of QueryBuilder.build_traversal_from_path. -/
def build_traversal_from_path (sch : Schema) (qb : QB) (relation : Relation)
    (source_class : NClass) : Option (QB × String) :=
  build_traversal_from_path_loop sch relation (pySplitUU relation.path) 0 "" source_class qb ""

/-! ### build_label, build_additional_match, build_order_by, build_source -/

/-- Model of QueryBuilder.build_label. -/
def build_label (qb : QB) (ident : String) (cls : NClass) : QB × String :=
  let ident_w_label := ident ++ ":" ++ cls.label
  if !optStrTruthy qb.ast.return_clause &&
     (qb.ast.additional_return.isEmpty || !(qb.ast.additional_return.contains ident)) then
    ({ qb with ast := { qb.ast with
        matchL := qb.ast.matchL ++ ["(" ++ ident_w_label ++ ")"],
        return_clause := some ident } }, ident)
  else (qb, ident)

/-- Model of QueryBuilder.build_additional_match (the has() constraints;
every stored value is a definition dict, so the else branches raising
ValueError are unreachable). -/
def build_additional_match (qb : QB) (ident : String)
    (must_match dont_match : List (String × RelDef)) : QB :=
  let qb := must_match.foldl (fun qb kv =>
    let stmt := _rel_helper ident (":" ++ kv.2.node_class.label) (some "")
                  kv.2.relation_type (some kv.2.direction) []
    { qb with ast := { qb.ast with whereL := qb.ast.whereL ++ [stmt] } }) qb
  dont_match.foldl (fun qb kv =>
    let stmt := _rel_helper ident (":" ++ kv.2.node_class.label) (some "")
                  kv.2.relation_type (some kv.2.direction) []
    { qb with ast := { qb.ast with whereL := qb.ast.whereL ++ ["NOT " ++ stmt] } }) qb

/-- Model of QueryBuilder.build_order_by ("?" renders a random ordering;
the Python assignment order_by = "r" is modelled as the list ["r"],
which renders identically). -/
def build_order_by (qb : QB) (ident : String) (order_by_elements : List String) : QB :=
  if order_by_elements.contains "?" then
    { qb with ast := { qb.ast with
        with_clause := some (ident ++ ", rand() as r"),
        order_by := some ["r"] } }
  else
    { qb with ast := { qb.ast with
        order_by := some (order_by_elements.map (fun p => ident ++ "." ++ p)) } }

/-! ### NodeSet state (match.py lines 945-973)

The claims exercise node sets whose source is a StructuredNode class, so
the source is an NClass.  skip/limit are Python attributes that do not
exist until first assigned; absence is modelled as none.  filters is
always the empty list on a NodeSet (only Traversal.match appends to it)
and is omitted; _subqueries and _extra_results are kept. -/

structure NS where
  source : NClass
  q_filters : QObj := {}
  must_match : List (String × RelDef) := []
  dont_match : List (String × RelDef) := []
  relations_to_fetch : List Relation := []
  order_by_elements : Option (List String) := none
  skip : Option Nat := none
  limit : Option Nat := none
  subqueries : List (String × List String) := []
  extra_results : List (String × String) := []

/-- Model of QueryBuilder.build_source for a NodeSet whose source is a
StructuredNode class (the case every claim exercises): build_label on the
lowered label, then the has() constraints, then ordering, then filters. -/
def build_source (sch : Schema) (qb : QB) (ns : NS) : QB × Except PyErr String :=
  let (qb, ident) := build_label qb (pyLower ns.source.label) ns.source
  let qb := build_additional_match qb ident ns.must_match ns.dont_match
  let qb := match ns.order_by_elements with
    | some els => build_order_by qb ident els
    | none => qb
  if qTruthy ns.q_filters then
    match build_where_stmt sch ns.source qb ident ns.q_filters with
    | (qb, .error e) => (qb, .error e)
    | (qb, .ok _) => (qb, .ok ident)
  else (qb, .ok ident)

/-- Loop of build_ast over relations_to_fetch (on an undeclared path part
Python raises AttributeError out of the loop). -/
def build_ast_relations (sch : Schema) (source : NClass) :
    QB → List Relation → QB × Except PyErr Unit
  | qb, [] => (qb, .ok ())
  | qb, rel :: rest =>
      match build_traversal_from_path sch qb rel source with
      | none => (qb, .error (.attributeError rel.path))
      | some (qb, _) => build_ast_relations sch source qb rest

/-- Model of QueryBuilder.build_ast for a NodeSet source: resolve the
declared traversal paths, then the source, then copy the pagination
attributes into the AST. -/
def build_ast (sch : Schema) (ns : NS) (subquery_context : Bool) : QB × Except PyErr Unit :=
  let qb : QB := { subquery_context := subquery_context }
  match build_ast_relations sch ns.source qb ns.relations_to_fetch with
  | (qb, .error e) => (qb, .error e)
  | (qb, .ok _) =>
      match build_source sch qb ns with
      | (qb, .error e) => (qb, .error e)
      | (qb, .ok _) =>
          ({ qb with ast := { qb.ast with skip := ns.skip, limit := ns.limit } }, .ok ())

/-! ### build_query (match.py lines 712-773), decomposed clause by clause
in the order the source appends them -/

/-- Lookup preamble piece of build_query (an untruthy lookup contributes
nothing, which coincides with appending the empty string). -/
def lookupPart (ast : QueryAST) : String := (ast.lookup).getD ""

/-- MATCH piece of build_query. -/
def matchPart (ast : QueryAST) : String :=
  if !ast.matchL.isEmpty then " MATCH " ++ joinStr " MATCH " ast.matchL else ""

/-- OPTIONAL MATCH piece of build_query. -/
def optionalMatchPart (ast : QueryAST) : String :=
  if !ast.optional_match.isEmpty then
    " OPTIONAL MATCH " ++ joinStr " OPTIONAL MATCH " ast.optional_match
  else ""

/-- WHERE piece of build_query. -/
def wherePart (ast : QueryAST) : String :=
  if !ast.whereL.isEmpty then " WHERE " ++ joinStr " AND " ast.whereL else ""

/-- WITH piece of build_query. -/
def withPart (ast : QueryAST) : String :=
  if optStrTruthy ast.with_clause then " WITH " ++ (ast.with_clause).getD "" else ""

/-- CALL sub-statement piece of build_query. -/
def subqueriesText (ast : QueryAST) (subqueries : List (String × List String)) : String :=
  joinStr "" (subqueries.map (fun sq =>
    " CALL \x7b WITH " ++ pyStr ast.return_clause ++ " " ++ sq.1 ++ " \x7d "))

/-- Model of Python list.remove (first occurrence). -/
def removeFirst : List String → String → List String
  | [], _ => []
  | y :: ys, x => if y = x then ys else y :: removeFirst ys x

/-- The returned_items list of build_query: sub-statement return sets,
then the primary return clause (outside a subquery context), then the
additional returns, then the annotated aggregates (replacing a prior
binding of the same name). -/
def returnedItems (ast : QueryAST) (subquery_context : Bool)
    (subqueries : List (String × List String)) (extra_results : List (String × String)) :
    List String :=
  let items := subqueries.flatMap (fun sq => sq.2)
  let items := if optStrTruthy ast.return_clause && !subquery_context then
      items ++ [(ast.return_clause).getD ""] else items
  let items := if !ast.additional_return.isEmpty then items ++ ast.additional_return else items
  extra_results.foldl (fun items vr =>
    let items := if items.contains vr.1 then removeFirst items vr.1 else items
    items ++ [vr.2 ++ " AS " ++ vr.1]) items

/-- ORDER BY piece of build_query. -/
def orderByPart (ast : QueryAST) : String :=
  match ast.order_by with
  | some l => if !l.isEmpty then " ORDER BY " ++ joinStr ", " l else ""
  | none => ""

/-- Tail SKIP piece of build_query (suppressed in count mode). -/
def skipTailPart (ast : QueryAST) : String :=
  if optNatTruthy ast.skip && !ast.is_count then " SKIP " ++ natStr (ast.skip.getD 0) else ""

/-- Tail LIMIT piece of build_query (suppressed in count mode). -/
def limitTailPart (ast : QueryAST) : String :=
  if optNatTruthy ast.limit && !ast.is_count then " LIMIT " ++ natStr (ast.limit.getD 0) else ""

/-- Model of QueryBuilder.build_query: the pieces concatenated in source
order. -/
def build_query (ast : QueryAST) (subquery_context : Bool)
    (subqueries : List (String × List String)) (extra_results : List (String × String)) : String :=
  lookupPart ast ++ matchPart ast ++ optionalMatchPart ast ++ wherePart ast ++ withPart ast ++
  subqueriesText ast subqueries ++ " RETURN " ++
  joinStr ", " (returnedItems ast subquery_context subqueries extra_results) ++
  orderByPart ast ++ skipTailPart ast ++ limitTailPart ast

/-- Model of the AST rewrite performed by QueryBuilder._count before it
renders and executes: fold pagination into the WITH clause, collapse the
return clause to a count, drop order_by and the additional returns
(Python assigns None to additional_return; both are falsy everywhere the
field is read, see the QueryAST comment). -/
def count_rewrite (ast : QueryAST) : QueryAST :=
  let ast := { ast with is_count := true }
  let wc := pyStr ast.return_clause
  let wc := if optNatTruthy ast.skip then wc ++ " SKIP " ++ natStr (ast.skip.getD 0) else wc
  let wc := if optNatTruthy ast.limit then wc ++ " LIMIT " ++ natStr (ast.limit.getD 0) else wc
  { ast with
    with_clause := some wc,
    return_clause := some ("count(" ++ pyStr ast.return_clause ++ ")"),
    order_by := none,
    additional_return := [] }

/-! ### NodeSet fluent and terminal operations (match.py lines 978-1092) -/

/-- Modelled from the spec: Q(*args, **kwargs) of neomodel/match_q.py
(not under src/) builds an AND node whose children are the positional
sub-trees and one leaf per keyword (spec sections 3 and 4.3). -/
def qOfArgsKwargs (args : List QChild) (kwargs : List (String × PValue)) : QChild :=
  .q .andC false (args ++ kwargs.map (fun kv => .kv kv.1 kv.2))

/-- Modelled from the spec: Q(old & Q(*args, **kwargs)) — successive
filter calls AND-combine the new predicate with the existing tree (spec
section 3: new filter calls logically AND-combine with existing state;
combining with an empty tree yields the other operand, and the outer
Q(...) wraps the combination as a single child). -/
def qCombine (old : QObj) (args : List QChild) (kwargs : List (String × PValue)) : QObj :=
  let combined : QChild :=
    if old.children.isEmpty then qOfArgsKwargs args kwargs
    else .q .andC false [.q old.connector old.negated old.children, qOfArgsKwargs args kwargs]
  { connector := .andC, negated := false, children := [combined] }

/-- Model of NodeSet.filter: AND-combine into the persistent filter tree
(a call with no arguments leaves the set unchanged). -/
def NS.filter (ns : NS) (args : List QChild) (kwargs : List (String × PValue)) : NS :=
  if !args.isEmpty || !kwargs.isEmpty then
    { ns with q_filters := qCombine ns.q_filters args kwargs }
  else ns

/-- Model of NodeSet.has: merge the processed constraints into must_match
and dont_match (dict.update). -/
def NS.has (sch : Schema) (ns : NS) (kwargs : List (String × PValue)) : Except PyErr NS :=
  match process_has_args sch ns.source kwargs with
  | .error e => .error e
  | .ok (m, d) =>
      .ok { ns with
        must_match := m.foldl (fun acc kv => aset acc kv.1 kv.2) ns.must_match,
        dont_match := d.foldl (fun acc kv => aset acc kv.1 kv.2) ns.dont_match }

inductive GetErr where
  | multipleNodesReturned
  | doesNotExist
  | pyErr : PyErr → GetErr
deriving DecidableEq, Repr

/-- Model of NodeSet._get: mutate self with the filters and the limit,
compile, and hand the compiled statement to the execution collaborator
dbRun (which models _execute plus the database driver; the lazy flag
only changes the projection inside that collaborator).  The returned NS
is the mutated self. -/
def NS._get (sch : Schema) (dbRun : QB → List α) (ns : NS) (limit : Option Nat)
    (kwargs : List (String × PValue)) : NS × Except PyErr (List α) :=
  let ns := ns.filter [] kwargs
  let ns := if optNatTruthy limit then { ns with limit := limit } else ns
  match build_ast sch ns false with
  | (_, .error e) => (ns, .error e)
  | (qb, .ok _) => (ns, .ok (dbRun qb))

/-- Model of NodeSet.get. -/
def NS.get (sch : Schema) (dbRun : QB → List α) (ns : NS)
    (kwargs : List (String × PValue)) : NS × Except GetErr α :=
  match NS._get sch dbRun ns (some 2) kwargs with
  | (ns, .error e) => (ns, .error (.pyErr e))
  | (ns, .ok result) =>
      if result.length > 1 then (ns, .error .multipleNodesReturned)
      else
        match result with
        | [] => (ns, .error .doesNotExist)
        | x :: _ => (ns, .ok x)

/-- Model of NodeSet.get_or_none: swallow only the not-found failure. -/
def NS.get_or_none (sch : Schema) (dbRun : QB → List α) (ns : NS)
    (kwargs : List (String × PValue)) : NS × Except GetErr (Option α) :=
  match NS.get sch dbRun ns kwargs with
  | (ns, .ok x) => (ns, .ok (some x))
  | (ns, .error .doesNotExist) => (ns, .ok none)
  | (ns, .error e) => (ns, .error e)

/-- Model of NodeSet.first. -/
def NS.first (sch : Schema) (dbRun : QB → List α) (ns : NS)
    (kwargs : List (String × PValue)) : NS × Except GetErr α :=
  match NS._get sch dbRun ns (some 1) kwargs with
  | (ns, .error e) => (ns, .error (.pyErr e))
  | (ns, .ok result) =>
      match result with
      | x :: _ => (ns, .ok x)
      | [] => (ns, .error .doesNotExist)

/-- Model of NodeSet.first_or_none: swallow only the not-found failure. -/
def NS.first_or_none (sch : Schema) (dbRun : QB → List α) (ns : NS)
    (kwargs : List (String × PValue)) : NS × Except GetErr (Option α) :=
  match NS.first sch dbRun ns kwargs with
  | (ns, .ok x) => (ns, .ok (some x))
  | (ns, .error .doesNotExist) => (ns, .ok none)
  | (ns, .error e) => (ns, .error e)

/-! ### Helper lemmas: strings, decimal rendering, association lists -/

/-! ### Placeholder registry: counters and generated names -/

/-- Current occurrence counter of a base name in a registry (0 when the
base name has not been registered yet). -/
def cntOf (reg : List (String × Nat)) (k : String) : Nat := (alookup reg k).getD 0

/-- The sequence of names returned by successive _register_place_holder
calls with the given base names. -/
def registerNames (qb : QB) : List String → List String
  | [] => []
  | k :: ks =>
      ((_register_place_holder qb k).2) :: registerNames (_register_place_holder qb k).1 ks

/-! ### Concrete descriptors shared by the scenarios below -/

/-- String property descriptor: deflate is the identity on strings (the
behaviour of a plain StringProperty). -/
def strProp : PropDesc :=
  { deflate := fun v => match v with | .str s => .str s | _ => .noneD }

/-- Integer property descriptor. -/
def intProp : PropDesc :=
  { deflate := fun v => match v with | .int i => .int i | _ => .noneD }

/-- Array-of-string property descriptor: deflate maps the sequence
elementwise (the behaviour of ArrayProperty(StringProperty())). -/
def arrProp : PropDesc :=
  { deflate := fun v => match v with
      | .list l => .list (l.map (fun x => strProp.deflate x))
      | .tuple l => .list (l.map (fun x => strProp.deflate x))
      | .str s => .str s
      | _ => .noneD,
    isArray := true }

/-! ### Concrete node classes and schema used in the witness scenarios -/

def cPerson : NClass := { clsRepr := "Person", label := "Person", name := "Person" }

def rdFriends : RelDef :=
  { node_class := cPerson, direction := 1, relation_type := some "FRIEND" }

/-- Alias property "uid" redirecting to "user_id". -/
def uidAlias : PropDesc := { deflate := fun _ => .noneD, aliasTo := some "user_id" }

/-- Canonical property "user_id" stored under the database name "userId". -/
def userIdProp : PropDesc :=
  { deflate := fun v => match v with | .str s => .str s | _ => .noneD,
    dbProperty := some "userId" }

def schPerson : Schema :=
  { rels := fun c p => if c = cPerson ∧ p = "friends" then some rdFriends else none,
    props := fun _ =>
      [("age", intProp), ("name", strProp), ("tags", arrProp),
       ("uid", uidAlias), ("user_id", userIdProp)] }

/-- A NodeSet over the Person class with no accumulated state. -/
def nsPerson : NS := { source := cPerson }

/-- The builder state compiled from nsPerson with limit 2 and no
filters: one label match and the limit carried in the AST. -/
def qbPersonLimit2 : QB where
  ast :=
    { matchL := ["(person:Person)"],
      return_clause := some "person",
      limit := some 2 }

/-- An AST with pagination, ordering and an additional return, as left
by a compilation just before _count rewrites it. -/
def astC4 : QueryAST where
  matchL := ["(person:Person)"]
  return_clause := some "person"
  order_by := some ["person.age"]
  additional_return := ["friend_r1"]
  skip := some 5
  limit := some 10

/-! ### Relationship-path resolution: the hop list, the generated
identifiers and the chained pattern, as functions of the source schema -/

/-- The node-counter key of a hop (the rel_reference f-string). -/
def hopKey (h : String × RelDef) : String := h.2.node_class.clsRepr ++ "_" ++ h.1

/-- Resolve the parts of a dotted path to their relationship
definitions, following node_class from hop to hop. -/
def resolveParts (sch : Schema) : NClass → List String → Option (List (String × RelDef))
  | _, [] => some []
  | c, p :: ps =>
      match sch.rels c p with
      | none => none
      | some rd => (resolveParts sch rd.node_class ps).map (fun rest => (p, rd) :: rest)

/-- The node identifiers generated for a hop list, starting from a given
node-counter registry (the last hop is replaced by the alias when one is
given). -/
def travNames (aliasOpt : Option String) : List (String × Nat) → List (String × RelDef) → List String
  | _, [] => []
  | reg, h :: rest =>
      (if rest.isEmpty && aliasOpt.isSome then aliasOpt.getD ""
       else pyLower h.2.node_class.label ++ "_" ++ h.1 ++ "_" ++
         natStr (cntOf reg (hopKey h) + 1)) ::
      travNames aliasOpt (aset reg (hopKey h) (cntOf reg (hopKey h) + 1)) rest

/-- The relationship identifiers generated for n hops after ident_count
c: r(c+1), r(c+2), ... -/
def travRelIdents : Nat → Nat → List String
  | _, 0 => []
  | c, n + 1 => ("r" ++ natStr (c + 1)) :: travRelIdents (c + 1) n

/-- The parenthesis wrapper of _rel_helper (parentheses added unless the
last character already closes one). -/
def parenWrap (s : String) : String :=
  if s.data.getLast? = some ')' then s else "(" ++ s ++ ")"

/-- The relationship bracket of _rel_helper for an explicit identifier
and no relationship properties. -/
def relDefText (ident : String) (relation_type : Option String) : String :=
  match relation_type with
  | none => ""
  | some rt => if rt = "*" then "[*]" else "[" ++ ident ++ ":`" ++ rt ++ "`" ++ "]"

/-- The directional arrow of _rel_helper. -/
def dirText (direction : Int) (rel_def : String) : String :=
  if direction = OUTGOING then "-" ++ rel_def ++ "->"
  else if direction = INCOMING then "<-" ++ rel_def ++ "-"
  else "-" ++ rel_def ++ "-"

/-- The pattern text one hop appends to the chain: its directed
relationship bracket followed by its node pattern. -/
def hopSegment (rel_ident rhs_name : String) (rd : RelDef) : String :=
  dirText rd.direction (relDefText rel_ident rd.relation_type) ++
    parenWrap (rhs_name ++ ":" ++ rd.node_class.label)

/-- The per-hop segments of a resolved path, given the node and
relationship identifier lists. -/
def travSegs : List (String × RelDef) → List String → List String → List String
  | h :: hs, nm :: nms, ri :: ris => hopSegment ri nm h.2 :: travSegs hs nms ris
  | _, _, _ => []

/-- The chained pattern of a whole path: the root node pattern followed
by every hop segment. -/
def travChain (root : String) (segs : List String) : String :=
  parenWrap root ++ joinStr "" segs

/-- The identifier text of the path root (label omitted in a subquery
context). -/
def rootIdent (src : NClass) (subquery_context : Bool) : String :=
  if subquery_context then pyLower src.label
  else pyLower src.label ++ ":" ++ src.label

/-- Identifier hygiene: a string with no underscore and no decimal
digit. -/
def strNoUD (s : String) : Prop := ∀ c ∈ s.data, c ≠ '_' ∧ c.isDigit = false

instance (s : String) : Decidable (strNoUD s) := by
  unfold strNoUD
  infer_instance

/-- The node name generated for one hop: the alias on an aliased final
hop, otherwise lowercased label, part and per-hop-key occurrence count. -/
def stepName (relation : Relation) (isLast : Bool) (reg : List (String × Nat))
    (part : String) (rd : RelDef) : String :=
  if isLast && relation.aliasName.isSome then relation.aliasName.getD ""
  else pyLower rd.node_class.label ++ "_" ++ part ++ "_" ++ natStr (cntOf reg (hopKey (part, rd)) + 1)

/-- The builder state after one non-initial loop step (counter bump for
the hop key, optional additional-return bookkeeping for the node name,
identifier bump, optional additional-return bookkeeping for the
relationship identifier). -/
def stepQB (relation : Relation) (isLast : Bool) (part : String) (rd : RelDef) (qb : QB) : QB :=
  let nm := stepName relation isLast qb.node_counters part rd
  let qbA := { qb with
    node_counters := aset qb.node_counters (hopKey (part, rd))
      (cntOf qb.node_counters (hopKey (part, rd)) + 1) }
  let qbB := if relation.include_in_return then _additional_return qbA nm else qbA
  let qbC := { qbB with ident_count := qbB.ident_count + 1 }
  let rel_ident := "r" ++ natStr qbC.ident_count
  if relation.include_in_return then _additional_return qbC rel_ident else qbC

/-- The builder state after the first loop step (index 0, empty pattern
so far): like stepQB but additionally wiring the primary node name into
the return clause. -/
def stepQB0 (relation : Relation) (isLast : Bool) (part : String) (rd : RelDef)
    (src : NClass) (qb : QB) : QB :=
  let nm := stepName relation isLast qb.node_counters part rd
  let qbA := { qb with
    node_counters := aset qb.node_counters (hopKey (part, rd))
      (cntOf qb.node_counters (hopKey (part, rd)) + 1) }
  let qbB := if relation.include_in_return then _additional_return qbA nm else qbA
  let qbR := { qbB with ast := { qbB.ast with return_clause := some (pyLower src.label) } }
  let qbC := { qbR with ident_count := qbR.ident_count + 1 }
  let rel_ident := "r" ++ natStr qbC.ident_count
  if relation.include_in_return then _additional_return qbC rel_ident else qbC

/-! ### Concrete traversal scenario: Customer -orders-> Order -items-> Item -/

def cCustomer : NClass := { clsRepr := "Customer", label := "Customer", name := "Customer" }

def cOrder : NClass := { clsRepr := "Order", label := "Order", name := "Order" }

def cItem : NClass := { clsRepr := "Item", label := "Item", name := "Item" }

def rdOrders : RelDef :=
  { node_class := cOrder, direction := OUTGOING, relation_type := some "HAS_ORDER" }

def rdItems : RelDef :=
  { node_class := cItem, direction := OUTGOING, relation_type := some "HAS_ITEM" }

def schShop : Schema :=
  { rels := fun c p =>
      if c = cCustomer ∧ p = "orders" then some rdOrders
      else if c = cOrder ∧ p = "items" then some rdItems
      else none,
    props := fun _ => [] }

def relShop : Relation := { path := "orders__items" }

def hopsShop : List (String × RelDef) := [("orders", rdOrders), ("items", rdItems)]

theorem string_ext {s t : String} (h : s.data = t.data) : s = t := by
  cases s; cases t; exact congrArg String.mk h

theorem string_data_mk (l : List Char) : (String.mk l).data = l := rfl

theorem natStrAux_eq (fuel : Nat) : ∀ (n : Nat) (acc : List Char), n ≤ fuel →
    natStrAux fuel n acc = ((Nat.digits 10 n).map Nat.digitChar).reverse ++ acc := by
  induction fuel with
  | zero =>
      intro n acc h
      have : n = 0 := Nat.le_zero.mp h
      subst this
      simp [natStrAux]
  | succ f ih =>
      intro n acc h
      by_cases h0 : n = 0
      · subst h0; simp [natStrAux]
      · rw [natStrAux, if_neg h0]
        rw [ih (n / 10) _ (by
          have : n / 10 < n := Nat.div_lt_self (Nat.pos_of_ne_zero h0) (by norm_num)
          omega)]
        rw [Nat.digits_def' (by norm_num : 1 < 10) (Nat.pos_of_ne_zero h0)]
        simp [List.reverse_cons, List.append_assoc]

theorem natStr_data (n : Nat) :
    (natStr n).data = if n = 0 then ['0'] else ((Nat.digits 10 n).map Nat.digitChar).reverse := by
  by_cases h : n = 0
  · subst h; rfl
  · rw [natStr, if_neg h, if_neg h, string_data_mk, natStrAux_eq n n [] (Nat.le_refl n)]
    simp

theorem digitChar_isDigit {d : Nat} (h : d < 10) : (Nat.digitChar d).isDigit = true := by
  interval_cases d <;> decide

theorem digitChar_inj {a b : Nat} (ha : a < 10) (hb : b < 10)
    (h : Nat.digitChar a = Nat.digitChar b) : a = b := by
  interval_cases a <;> interval_cases b <;> first | rfl | exact absurd h (by decide)

theorem natStr_chars_isDigit {n : Nat} {c : Char} (h : c ∈ (natStr n).data) : c.isDigit = true := by
  rw [natStr_data] at h
  by_cases h0 : n = 0
  · rw [if_pos h0] at h
    simp at h
    subst h
    decide
  · rw [if_neg h0] at h
    rw [List.mem_reverse] at h
    obtain ⟨d, hd, rfl⟩ := List.mem_map.mp h
    exact digitChar_isDigit (Nat.digits_lt_base (by norm_num) hd)

theorem isDigit_ne_underscore {c : Char} (h : c.isDigit = true) : c ≠ '_' := by
  intro h2
  subst h2
  exact absurd h (by decide)

theorem natStr_chars_ne_underscore {n : Nat} {c : Char} (h : c ∈ (natStr n).data) : c ≠ '_' :=
  isDigit_ne_underscore (natStr_chars_isDigit h)

theorem natStr_ne_nil (n : Nat) : (natStr n).data ≠ [] := by
  rw [natStr_data]
  by_cases h : n = 0
  · simp [h]
  · rw [if_neg h]
    simp only [ne_eq, List.reverse_eq_nil_iff, List.map_eq_nil_iff]
    exact Nat.digits_ne_nil_iff_ne_zero.mpr h

theorem map_digitChar_inj : ∀ (l1 l2 : List Nat), (∀ x ∈ l1, x < 10) → (∀ x ∈ l2, x < 10) →
    l1.map Nat.digitChar = l2.map Nat.digitChar → l1 = l2
  | [], [], _, _, _ => rfl
  | [], _ :: _, _, _, h => by simp at h
  | _ :: _, [], _, _, h => by simp at h
  | a :: l1, b :: l2, h1, h2, h => by
      simp only [List.map_cons, List.cons.injEq] at h
      have hab : a = b :=
        digitChar_inj (h1 a (by simp)) (h2 b (by simp)) h.1
      have : l1 = l2 :=
        map_digitChar_inj l1 l2 (fun x hx => h1 x (by simp [hx])) (fun x hx => h2 x (by simp [hx])) h.2
      rw [hab, this]

theorem natStr_inj {m n : Nat} (h : natStr m = natStr n) : m = n := by
  have hd : (natStr m).data = (natStr n).data := congrArg String.data h
  rw [natStr_data, natStr_data] at hd
  by_cases hm : m = 0 <;> by_cases hn : n = 0
  · rw [hm, hn]
  · rw [if_pos hm, if_neg hn] at hd
    exfalso
    have hmap : (Nat.digits 10 n).map Nat.digitChar = ['0'] := by
      have := congrArg List.reverse hd
      simpa using this.symm
    match hdig : Nat.digits 10 n, hmap2 : (Nat.digits 10 n).map Nat.digitChar, hmap with
    | [d], _, _ =>
        rw [hdig] at hmap
        simp at hmap
        have : d = 0 := digitChar_inj (Nat.digits_lt_base (by norm_num) (by rw [hdig]; simp)) (by norm_num) (by simpa using hmap)
        subst this
        have := Nat.getLast_digit_ne_zero 10 hn
        rw [Nat.digits_def'] at hdig
        all_goals simp_all [Nat.pos_of_ne_zero]
    | [], _, _ => rw [hdig] at hmap; simp at hmap
    | d1 :: d2 :: rest, _, _ =>
        rw [hdig] at hmap
        simp at hmap
  · rw [if_neg hm, if_pos hn] at hd
    exfalso
    have hmap : (Nat.digits 10 m).map Nat.digitChar = ['0'] := by
      have := congrArg List.reverse hd
      simpa using this
    match hdig : Nat.digits 10 m, hmap2 : (Nat.digits 10 m).map Nat.digitChar, hmap with
    | [d], _, _ =>
        rw [hdig] at hmap
        simp at hmap
        have : d = 0 := digitChar_inj (Nat.digits_lt_base (by norm_num) (by rw [hdig]; simp)) (by norm_num) (by simpa using hmap)
        subst this
        have := Nat.getLast_digit_ne_zero 10 hm
        rw [Nat.digits_def'] at hdig
        all_goals simp_all [Nat.pos_of_ne_zero]
    | [], _, _ => rw [hdig] at hmap; simp at hmap
    | d1 :: d2 :: rest, _, _ =>
        rw [hdig] at hmap
        simp at hmap
  · rw [if_neg hm, if_neg hn] at hd
    have := congrArg List.reverse hd
    simp only [List.reverse_reverse] at this
    have hdig : Nat.digits 10 m = Nat.digits 10 n :=
      map_digitChar_inj _ _ (fun x hx => Nat.digits_lt_base (by norm_num) hx)
        (fun x hx => Nat.digits_lt_base (by norm_num) hx) this
    exact Nat.digits.injective 10 hdig

/-! ### Marker-split lemmas: a string of the shape a ++ "_" ++ b
decomposes uniquely when the underscore is the first (or the last)
underscore of the string -/

theorem marker_split_left : ∀ (a c b d : List Char), (∀ x ∈ a, x ≠ '_') → (∀ x ∈ c, x ≠ '_') →
    a ++ '_' :: b = c ++ '_' :: d → a = c ∧ b = d
  | [], [], b, d, _, _, h => by simpa using h
  | [], y :: ys, b, d, _, hc, h => by
      simp only [List.nil_append, List.cons_append, List.cons.injEq] at h
      exact absurd h.1.symm (hc y (by simp))
  | x :: xs, [], b, d, ha, _, h => by
      simp only [List.nil_append, List.cons_append, List.cons.injEq] at h
      exact absurd h.1 (ha x (by simp))
  | x :: xs, y :: ys, b, d, ha, hc, h => by
      simp only [List.cons_append, List.cons.injEq] at h
      have := marker_split_left xs ys b d (fun z hz => ha z (by simp [hz]))
        (fun z hz => hc z (by simp [hz])) h.2
      exact ⟨by rw [h.1, this.1], this.2⟩

theorem marker_split_right (a c b d : List Char) (hb : ∀ x ∈ b, x ≠ '_') (hd : ∀ x ∈ d, x ≠ '_')
    (h : a ++ '_' :: b = c ++ '_' :: d) : a = c ∧ b = d := by
  have hr : b.reverse ++ '_' :: a.reverse = d.reverse ++ '_' :: c.reverse := by
    have := congrArg List.reverse h
    simpa [List.reverse_append] using this
  have := marker_split_left b.reverse d.reverse a.reverse c.reverse
    (fun z hz => hb z (List.mem_reverse.mp hz)) (fun z hz => hd z (List.mem_reverse.mp hz)) hr
  constructor
  · have := congrArg List.reverse this.2
    simpa using this
  · have := congrArg List.reverse this.1
    simpa using this

/-- Data of a placeholder-style name key ++ "_" ++ natStr n. -/
theorem name_data (k : String) (n : Nat) :
    (k ++ "_" ++ natStr n).data = k.data ++ '_' :: (natStr n).data := by
  rw [String.data_append, String.data_append, List.append_assoc]
  rfl

/-- A name key ++ "_" ++ counter determines the key and the counter: the
counter digits contain no underscore, so the marked underscore is the
last one. -/
theorem name_decomp {k1 k2 : String} {n1 n2 : Nat}
    (h : k1 ++ "_" ++ natStr n1 = k2 ++ "_" ++ natStr n2) : k1 = k2 ∧ n1 = n2 := by
  have hd : k1.data ++ '_' :: (natStr n1).data = k2.data ++ '_' :: (natStr n2).data := by
    have := congrArg String.data h
    rwa [name_data, name_data] at this
  have := marker_split_right _ _ _ _ (fun z hz => natStr_chars_ne_underscore hz)
    (fun z hz => natStr_chars_ne_underscore hz) hd
  exact ⟨string_ext this.1, natStr_inj (string_ext this.2)⟩

/-! ### Association list lemmas -/

theorem alookup_nil (k : String) : alookup ([] : List (String × α)) k = none := rfl

theorem alookup_cons (a : String × α) (t : List (String × α)) (k : String) :
    alookup (a :: t) k = if a.1 = k then some a.2 else alookup t k := by
  by_cases h : a.1 = k
  · simp [alookup, List.find?, h]
  · simp only [alookup, List.find?]
    rw [if_neg h]
    simp [h]

theorem alookup_aset_self (l : List (String × α)) (k : String) (v : α) :
    alookup (aset l k v) k = some v := by
  induction l with
  | nil => simp [aset, alookup_cons]
  | cons a t ih =>
      by_cases h : a.1 = k
      · simp [aset, h, alookup_cons]
      · simp [aset, h, alookup_cons, ih]

theorem alookup_aset_ne (l : List (String × α)) (k k' : String) (v : α) (h : k' ≠ k) :
    alookup (aset l k v) k' = alookup l k' := by
  have hne : ¬(k = k') := fun hh => h hh.symm
  induction l with
  | nil => simp [aset, alookup_cons, alookup_nil, hne]
  | cons a t ih =>
      by_cases ha : a.1 = k
      · rw [aset, if_pos ha, alookup_cons, alookup_cons, if_neg hne, if_neg (ha ▸ hne)]
      · rw [aset, if_neg ha, alookup_cons, alookup_cons, ih]

theorem register_place_holder_eq (qb : QB) (key : String) :
    _register_place_holder qb key =
      ({ qb with
          place_holder_registry := aset qb.place_holder_registry key (cntOf qb.place_holder_registry key + 1) },
        key ++ "_" ++ natStr (cntOf qb.place_holder_registry key + 1)) := by
  rw [_register_place_holder]
  cases h : alookup qb.place_holder_registry key <;> simp [cntOf, h]

theorem cntOf_aset_self (reg : List (String × Nat)) (k : String) (v : Nat) :
    cntOf (aset reg k v) k = v := by
  simp [cntOf, alookup_aset_self]

theorem cntOf_aset_ne (reg : List (String × Nat)) (k k' : String) (v : Nat) (h : k' ≠ k) :
    cntOf (aset reg k v) k' = cntOf reg k' := by
  simp [cntOf, alookup_aset_ne reg k k' v h]

theorem registerNames_mem_counter (ks : List String) : ∀ (qb : QB) (k : String) (n : Nat),
    (k ++ "_" ++ natStr n) ∈ registerNames qb ks → cntOf qb.place_holder_registry k < n := by
  induction ks with
  | nil => intro qb k n h; simp [registerNames] at h
  | cons k0 ks ih =>
      intro qb k n h
      rw [registerNames, register_place_holder_eq] at h
      rcases List.mem_cons.mp h with h | h
      · obtain ⟨hk, hn⟩ := name_decomp h
        subst hk
        omega
      · have hlt := ih _ k n h
        by_cases hk : k = k0
        · subst hk
          simp only [cntOf_aset_self] at hlt
          omega
        · rwa [cntOf_aset_ne _ _ _ _ hk] at hlt

theorem registerNames_pairwise (ks : List String) : ∀ qb : QB,
    (registerNames qb ks).Pairwise (fun a b => a ≠ b) := by
  induction ks with
  | nil => intro qb; simp [registerNames]
  | cons k0 ks ih =>
      intro qb
      rw [registerNames]
      refine List.Pairwise.cons ?_ (ih _)
      intro y hy heq
      rw [register_place_holder_eq] at hy heq
      rw [← heq] at hy
      have hc := registerNames_mem_counter ks _ k0 (cntOf qb.place_holder_registry k0 + 1) hy
      simp only [cntOf_aset_self] at hc
      omega

/-- C8: within one compilation every placeholder-registry call returns
base_name ++ "_" ++ occurrence_count (the per-base counter after the
call), and the names returned by any sequence of registry calls are
pairwise distinct, so no two distinct registered values in the compiled
parameter table can share a placeholder name. -/
theorem C8_placeholder_names_unique (qb : QB) (ks : List String) :
    (∀ key, (_register_place_holder qb key).2 =
      key ++ "_" ++ natStr (cntOf qb.place_holder_registry key + 1)) ∧
    (registerNames qb ks).Pairwise (fun a b => a ≠ b) :=
  ⟨fun key => by rw [register_place_holder_eq], registerNames_pairwise ks qb⟩

/-- C2: the string-pattern operators escape the deflated value with
re.escape before substituting it into their template, and the regex
operator passes the value through untouched; the case-insensitive iregex
however does NOT pass the value through unescaped — its template
"(?i)" ++ braces equals the iexact entry of _STRING_REGEX_OPERATOR_TABLE,
so the membership test in transform_regex_operator_to_filter escapes it
too, turning the regex a.b into the literal pattern (?i)a\.b.  This
contradicts the table comment ("regex operations that do not require
escaping") and the claim. -/
theorem C2_iregex_value_is_escaped :
    alookup OPERATOR_TABLE "iregex" = some _REGEX_INSESITIVE ∧
    _REGEX_INSESITIVE ∈ avalues _STRING_REGEX_OPERATOR_TABLE ∧
    transform_operator_to_filter _REGEX_INSESITIVE "name__iregex" (.str "a.b") strProp =
      .ok (_SPECIAL_OPERATOR_REGEX, .str "(?i)a\\.b") ∧
    ("(?i)a\\.b" : String) ≠ "(?i)a.b" ∧
    transform_operator_to_filter _SPECIAL_OPERATOR_REGEX "name__regex" (.str "a.b") strProp =
      .ok (_SPECIAL_OPERATOR_REGEX, .str "a.b") ∧
    transform_operator_to_filter _REGEX_CONTAINS "name__contains" (.str "a.b") strProp =
      .ok (_SPECIAL_OPERATOR_REGEX, .str ".*a\\.b.*") ∧
    transform_operator_to_filter (_SPECIAL_OPERATOR_INSENSITIVE ++ _REGEX_STARTSWITH)
        "name__istartswith" (.str "a.b") strProp =
      .ok (_SPECIAL_OPERATOR_REGEX, .str "(?i)a\\.b.*") :=
  ⟨by decide, by decide, rfl, by decide, rfl, rfl, rfl⟩

/-- C9: process_has_args rejects an undeclared relation name with a
ValueError, records True under the positive and False under the negative
existence dict keyed by the relation name, rejects a NodeSet value with
NotImplementedError and any other non-boolean value with a ValueError —
all before anything touches the database. -/
theorem C9_has_args (sch : Schema) (cls : NClass) (name : String) (rd : RelDef) (v : PValue) :
    (sch.rels cls name = none →
      ∃ msg, process_has_args sch cls [(name, v)] = .error (.valueError msg)) ∧
    (sch.rels cls name = some rd →
      process_has_args sch cls [(name, .bool true)] = .ok ([(name, rd)], []) ∧
      process_has_args sch cls [(name, .bool false)] = .ok ([], [(name, rd)]) ∧
      process_has_args sch cls [(name, .nodesetV)] =
        .error (.notImplementedError "Not implemented yet") ∧
      ((∀ b, v ≠ .bool b) → v ≠ .nodesetV →
        ∃ msg, process_has_args sch cls [(name, v)] = .error (.valueError msg))) := by
  constructor
  · intro h
    exact ⟨"No such relation " ++ name ++ " defined on a " ++ cls.name,
      by simp [process_has_args, process_has_args_loop, h]⟩
  · intro h
    refine ⟨?_, ?_, ?_, ?_⟩
    · simp [process_has_args, process_has_args_loop, h, aset]
    · simp [process_has_args, process_has_args_loop, h, aset]
    · simp [process_has_args, process_has_args_loop, h]
    · intro hb hn
      refine ⟨"Expecting True / False / NodeSet got something else", ?_⟩
      rw [process_has_args, process_has_args_loop, h]
      cases v with
      | bool b => exact absurd rfl (hb b)
      | nodesetV => exact absurd rfl hn
      | str s => rfl
      | int i => rfl
      | list l => rfl
      | tuple l => rfl
      | otherV s => rfl

/-- Witness for C9 at a concrete schema: all five behaviours observed. -/
theorem C9_has_args_witness :
    process_has_args schPerson cPerson [("friends", .bool true)] = .ok ([("friends", rdFriends)], []) ∧
    process_has_args schPerson cPerson [("friends", .bool false)] = .ok ([], [("friends", rdFriends)]) ∧
    process_has_args schPerson cPerson [("friends", .nodesetV)] =
      .error (.notImplementedError "Not implemented yet") ∧
    (∃ msg, process_has_args schPerson cPerson [("friends", .otherV "x")] = .error (.valueError msg)) ∧
    (∃ msg, process_has_args schPerson cPerson [("enemies", .bool true)] = .error (.valueError msg)) := by
  have hsome : schPerson.rels cPerson "friends" = some rdFriends := by
    simp [schPerson]
  have hnone : schPerson.rels cPerson "enemies" = none := by
    simp [schPerson]
  have h1 := (C9_has_args schPerson cPerson "friends" rdFriends (.otherV "x")).2 hsome
  have h2 := (C9_has_args schPerson cPerson "enemies" rdFriends (.bool true)).1 hnone
  exact ⟨h1.1, h1.2.1, h1.2.2.1,
    h1.2.2.2 (fun b h => PValue.noConfusion h) (fun h => PValue.noConfusion h), h2⟩

/-- C3: a filter entry whose field resolves to an alias property is
redirected to the canonical property it aliases, the value is deflated
under the canonical property's rules (no operator-specific
transformation is applied), and the output is keyed by the canonical
property's database storage name. -/
theorem C3_alias_filter_redirect (sch : Schema) (cls : NClass)
    (key prop target operator : String) (aliasProp canonical : PropDesc) (v : PValue)
    (hparse : pySplitUU key = [prop] ∧ operator = "=" ∨
      ∃ opkey, pySplitUU key = [prop, opkey] ∧ alookup OPERATOR_TABLE opkey = some operator)
    (halias : alookup (sch.props cls) prop = some aliasProp)
    (hto : aliasProp.aliasTo = some target)
    (hcanon : alookup (sch.props cls) target = some canonical) :
    process_filter_args sch cls [(key, v)] =
      .ok [(getDbPropertyName canonical target, (operator, canonical.deflate v))] := by
  rcases hparse with ⟨hsplit, hop⟩ | ⟨opkey, hsplit, hop⟩
  · subst hop
    simp [process_filter_args, process_filter_args_loop, hsplit, halias, hto, hcanon, aset]
  · simp [process_filter_args, process_filter_args_loop, hsplit, hop, halias, hto, hcanon, aset]

/-- Witness for C3: filtering uid="u1" (uid aliases user_id, stored as
userId) deflates under user_id's rules and is keyed by userId, and the
same happens for an operator suffix (uid__gt keeps the > operator with a
plainly deflated value). -/
theorem C3_alias_filter_redirect_witness :
    process_filter_args schPerson cPerson [("uid", .str "u1")] =
      .ok [("userId", ("=", .str "u1"))] ∧
    process_filter_args schPerson cPerson [("uid__gt", .str "u1")] =
      .ok [("userId", (">", .str "u1"))] := by
  constructor
  · exact C3_alias_filter_redirect schPerson cPerson "uid" "uid" "user_id" "=" uidAlias userIdProp
      (.str "u1") (Or.inl ⟨by decide, rfl⟩) rfl rfl rfl
  · exact C3_alias_filter_redirect schPerson cPerson "uid__gt" "uid" "user_id" ">" uidAlias userIdProp
      (.str "u1") (Or.inr ⟨"gt", by decide, by decide⟩) rfl rfl rfl

/-- C6: a filter entry whose value violates the shape constraint of its
operator — non-sequence for in, non-boolean for isnull, non-string
deflated value for the regex family — makes translation fail with an
invalid-filter-value error, and the builder state (placeholder registry
and parameter table included) is returned exactly as it was: no
placeholder and no parameter binding is registered as a side effect. -/
theorem C6_shape_violation_no_side_effects (sch : Schema) (cls : NClass) (ident : String)
    (qb : QB) (key prop opkey op : String) (v : PValue) (pd : PropDesc)
    (hsplit : pySplitUU key = [prop, opkey])
    (hop : alookup OPERATOR_TABLE opkey = some op)
    (hprop : alookup (sch.props cls) prop = some pd)
    (halias : pd.aliasTo = none)
    (hviol : (op = _SPECIAL_OPERATOR_IN ∧ (∀ l, v ≠ .list l) ∧ (∀ l, v ≠ .tuple l)) ∨
      (op = _SPECIAL_OPERATOR_ISNULL ∧ ∀ b, v ≠ .bool b) ∨
      (op ∈ avalues _REGEX_OPERATOR_TABLE ∧ ∀ s, pd.deflate v ≠ .str s)) :
    ∃ msg, _parse_q_filters sch cls ident qb .andC false [.kv key v] =
      (qb, .error (.valueError msg)) := by
  have herr : ∃ msg, process_filter_args sch cls [(key, v)] = .error (.valueError msg) := by
    rcases hviol with ⟨hop9, hl, ht⟩ | ⟨hop9, hb⟩ | ⟨hmem, hstr⟩
    · subst hop9
      refine ⟨"Value must be a tuple or list for IN operation " ++ key, ?_⟩
      rw [process_filter_args, process_filter_args_loop, hsplit]
      simp only [hop, hprop, halias]
      rw [transform_operator_to_filter, if_pos rfl]
      cases v with
      | list l => exact absurd rfl (hl l)
      | tuple l => exact absurd rfl (ht l)
      | str s => rfl
      | int i => rfl
      | bool b => rfl
      | nodesetV => rfl
      | otherV s => rfl
    · subst hop9
      refine ⟨"Value must be a bool for isnull operation on " ++ key, ?_⟩
      rw [process_filter_args, process_filter_args_loop, hsplit]
      simp only [hop, hprop, halias]
      rw [transform_operator_to_filter, if_neg (by decide), if_pos rfl]
      cases v with
      | bool b => exact absurd rfl (hb b)
      | str s => rfl
      | int i => rfl
      | list l => rfl
      | tuple l => rfl
      | nodesetV => rfl
      | otherV s => rfl
    · have hmem2 := hmem
      simp only [avalues, _REGEX_OPERATOR_TABLE, _STRING_REGEX_OPERATOR_TABLE,
        List.map_append, List.map_cons, List.map_nil, List.mem_append, List.mem_cons,
        List.mem_singleton, List.not_mem_nil, or_false] at hmem2
      have hne1 : ¬(op = _SPECIAL_OPERATOR_IN) := by
        rcases hmem2 with rfl | rfl | rfl | rfl | rfl | rfl | rfl | rfl <;> decide
      have hne2 : ¬(op = _SPECIAL_OPERATOR_ISNULL) := by
        rcases hmem2 with rfl | rfl | rfl | rfl | rfl | rfl | rfl | rfl <;> decide
      refine ⟨"Must be a string value for " ++ key, ?_⟩
      rw [process_filter_args, process_filter_args_loop, hsplit]
      simp only [hop, hprop, halias]
      rw [transform_operator_to_filter, if_neg hne1, if_neg hne2, if_pos hmem]
      rw [transform_regex_operator_to_filter.eq_def]
      cases h : pd.deflate v with
      | str s => exact absurd h (hstr s)
      | int i => rfl
      | list l => rfl
      | noneD => rfl
  obtain ⟨msg, herr⟩ := herr
  refine ⟨msg, ?_⟩
  rw [_parse_q_filters, parseChildrenLoop]
  simp only [herr]

/-- Witness for C6: age__in=1 (not a sequence), age__isnull=1 (not a
boolean) and name__iregex with an integer (deflates to a non-string)
each fail with a ValueError and return the builder state unchanged. -/
theorem C6_shape_violation_witness :
    (∃ msg, _parse_q_filters schPerson cPerson "person" {} .andC false [.kv "age__in" (.int 1)] =
      ({}, .error (.valueError msg))) ∧
    (∃ msg, _parse_q_filters schPerson cPerson "person" {} .andC false [.kv "age__isnull" (.int 1)] =
      ({}, .error (.valueError msg))) ∧
    (∃ msg, _parse_q_filters schPerson cPerson "person" {} .andC false [.kv "name__iregex" (.int 1)] =
      ({}, .error (.valueError msg))) := by
  refine ⟨?_, ?_, ?_⟩
  · exact C6_shape_violation_no_side_effects schPerson cPerson "person" {} "age__in" "age" "in"
      _SPECIAL_OPERATOR_IN (.int 1) intProp (by decide) (by decide) rfl rfl
      (Or.inl ⟨rfl, fun l h => PValue.noConfusion h, fun l h => PValue.noConfusion h⟩)
  · exact C6_shape_violation_no_side_effects schPerson cPerson "person" {} "age__isnull" "age"
      "isnull" _SPECIAL_OPERATOR_ISNULL (.int 1) intProp (by decide) (by decide) rfl rfl
      (Or.inr (Or.inl ⟨rfl, fun b h => PValue.noConfusion h⟩))
  · exact C6_shape_violation_no_side_effects schPerson cPerson "person" {} "name__iregex" "name"
      "iregex" _REGEX_INSESITIVE (.int 1) strProp (by decide) (by decide) rfl rfl
      (Or.inr (Or.inr ⟨by decide, fun s h => DValue.noConfusion h⟩))

/-- C7: an in-operator filter on a multi-valued (array) property is
rendered as the existential sub-expression any(x IN ident.prop WHERE x
IN $placeholder) with the whole supplied value deflated as one array,
while on a non-array property it is rendered as ordinary membership
ident.prop IN $placeholder with each element deflated individually. -/
theorem C7_in_operator_two_forms (sch : Schema) (cls : NClass) (ident : String) (qb : QB)
    (key prop : String) (l : List PValue) (pd : PropDesc)
    (hsplit : pySplitUU key = [prop, "in"])
    (hprop : alookup (sch.props cls) prop = some pd)
    (halias : pd.aliasTo = none) :
    (pd.isArray = true →
      _parse_q_filters sch cls ident qb .andC false [.kv key (.list l)] =
        ({ qb with
            place_holder_registry := aset qb.place_holder_registry
              (ident ++ "_" ++ getDbPropertyName pd prop)
              (cntOf qb.place_holder_registry (ident ++ "_" ++ getDbPropertyName pd prop) + 1),
            query_params := aset qb.query_params
              (ident ++ "_" ++ getDbPropertyName pd prop ++ "_" ++
                natStr (cntOf qb.place_holder_registry (ident ++ "_" ++ getDbPropertyName pd prop) + 1))
              (pd.deflate (.list l)) },
          .ok ("any(x IN " ++ ident ++ "." ++ getDbPropertyName pd prop ++ " WHERE x IN $" ++
            (ident ++ "_" ++ getDbPropertyName pd prop ++ "_" ++
              natStr (cntOf qb.place_holder_registry (ident ++ "_" ++ getDbPropertyName pd prop) + 1)) ++ ")"))) ∧
    (pd.isArray = false →
      _parse_q_filters sch cls ident qb .andC false [.kv key (.list l)] =
        ({ qb with
            place_holder_registry := aset qb.place_holder_registry
              (ident ++ "_" ++ getDbPropertyName pd prop)
              (cntOf qb.place_holder_registry (ident ++ "_" ++ getDbPropertyName pd prop) + 1),
            query_params := aset qb.query_params
              (ident ++ "_" ++ getDbPropertyName pd prop ++ "_" ++
                natStr (cntOf qb.place_holder_registry (ident ++ "_" ++ getDbPropertyName pd prop) + 1))
              (.list (l.map (fun v => pd.deflate v))) },
          .ok (ident ++ "." ++ getDbPropertyName pd prop ++ " " ++ _SPECIAL_OPERATOR_IN ++ " $" ++
            (ident ++ "_" ++ getDbPropertyName pd prop ++ "_" ++
              natStr (cntOf qb.place_holder_registry (ident ++ "_" ++ getDbPropertyName pd prop) + 1))))) := by
  have hin : alookup OPERATOR_TABLE "in" = some _SPECIAL_OPERATOR_IN := by decide
  constructor
  · intro harr
    have hpfa : process_filter_args sch cls [(key, .list l)] =
        .ok [(getDbPropertyName pd prop, (_SPECIAL_OPERATOR_ARRAY_IN, pd.deflate (.list l)))] := by
      rw [process_filter_args, process_filter_args_loop, hsplit]
      simp only [hin, hprop, halias]
      rw [transform_operator_to_filter, if_pos rfl, transform_in_operator_to_filter, if_pos harr]
      simp only [hprop]
      rfl
    rw [_parse_q_filters, parseChildrenLoop]
    simp only [hpfa]
    simp [entriesLoop, parseChildrenLoop, joinStr, register_place_holder_eq,
      _UNARY_OPERATORS, _SPECIAL_OPERATOR_ARRAY_IN, _SPECIAL_OPERATOR_ISNULL,
      _SPECIAL_OPERATOR_ISNOTNULL, _SPECIAL_OPERATOR_IN]
  · intro harr
    have hpfa : process_filter_args sch cls [(key, .list l)] =
        .ok [(getDbPropertyName pd prop,
          (_SPECIAL_OPERATOR_IN, .list (l.map (fun v => pd.deflate v))))] := by
      rw [process_filter_args, process_filter_args_loop, hsplit]
      simp only [hin, hprop, halias]
      rw [transform_operator_to_filter, if_pos rfl, transform_in_operator_to_filter]
      rw [if_neg (by rw [harr]; exact fun h => Bool.noConfusion h)]
      simp only [hprop]
      rfl
    rw [_parse_q_filters, parseChildrenLoop]
    simp only [hpfa]
    simp [entriesLoop, parseChildrenLoop, joinStr, register_place_holder_eq,
      _UNARY_OPERATORS, _SPECIAL_OPERATOR_ARRAY_IN, _SPECIAL_OPERATOR_ISNULL,
      _SPECIAL_OPERATOR_ISNOTNULL, _SPECIAL_OPERATOR_IN]

/-- Witness for C7: tags is an array property, so tags__in renders the
existential form with the whole list as one parameter; name is a plain
property, so name__in renders ordinary membership with elementwise
deflation. -/
theorem C7_in_operator_two_forms_witness :
    _parse_q_filters schPerson cPerson "person" {} .andC false
        [.kv "tags__in" (.list [.str "a"])] =
      ({ place_holder_registry := [("person_tags", 1)],
          query_params := [("person_tags_1", .list [.str "a"])] },
        .ok "any(x IN person.tags WHERE x IN $person_tags_1)") ∧
    _parse_q_filters schPerson cPerson "person" {} .andC false
        [.kv "name__in" (.list [.str "a"])] =
      ({ place_holder_registry := [("person_name", 1)],
          query_params := [("person_name_1", .list [.str "a"])] },
        .ok "person.name IN $person_name_1") := by
  constructor
  · exact (C7_in_operator_two_forms schPerson cPerson "person" {} "tags__in" "tags"
      [.str "a"] arrProp (by decide) rfl rfl).1 rfl
  · exact (C7_in_operator_two_forms schPerson cPerson "person" {} "name__in" "name"
      [.str "a"] strProp (by decide) rfl rfl).2 rfl

/-- A successful compilation copies the node-set pagination attributes
into the AST unchanged. -/
theorem build_ast_ok_pagination {sch : Schema} {ns : NS} {sc : Bool} {qb : QB}
    (h : build_ast sch ns sc = (qb, .ok ())) :
    qb.ast.limit = ns.limit ∧ qb.ast.skip = ns.skip := by
  rw [build_ast] at h
  split at h
  · simp at h
  · split at h
    · simp at h
    · have h1 := congrArg Prod.fst h
      simp only at h1
      rw [← h1]
      exact ⟨rfl, rfl⟩

/-- C5: get compiles with an internal row limit of two (the mutated set
carries limit 2 and the compiled AST carries limit 2); when the
execution collaborator returns two or more rows the call fails with the
multiple-results error, zero rows fail with the not-found error, and a
single row yields its sole value. -/
theorem C5_get_limit_two_and_outcomes {α : Type} (sch : Schema) (dbRun : QB → List α)
    (ns : NS) (kwargs : List (String × PValue)) (qb : QB)
    (hcompile : build_ast sch { ns.filter [] kwargs with limit := some 2 } false = (qb, .ok ())) :
    ({ ns.filter [] kwargs with limit := some 2 } : NS).limit = some 2 ∧
    qb.ast.limit = some 2 ∧
    (NS.get sch dbRun ns kwargs).1 = { ns.filter [] kwargs with limit := some 2 } ∧
    (2 ≤ (dbRun qb).length → (NS.get sch dbRun ns kwargs).2 = .error .multipleNodesReturned) ∧
    ((dbRun qb) = [] → (NS.get sch dbRun ns kwargs).2 = .error .doesNotExist) ∧
    (∀ x, dbRun qb = [x] → (NS.get sch dbRun ns kwargs).2 = .ok x) := by
  have hlim : qb.ast.limit = some 2 := (build_ast_ok_pagination hcompile).1
  have hget : NS.get sch dbRun ns kwargs =
      (if (dbRun qb).length > 1 then
        ({ ns.filter [] kwargs with limit := some 2 }, .error .multipleNodesReturned)
      else match dbRun qb with
        | [] => ({ ns.filter [] kwargs with limit := some 2 }, .error .doesNotExist)
        | x :: _ => ({ ns.filter [] kwargs with limit := some 2 }, .ok x)) := by
    rw [NS.get, NS._get]
    rw [if_pos (by decide : optNatTruthy (some 2) = true)]
    rw [hcompile]
    rfl
  refine ⟨rfl, hlim, ?_, ?_, ?_, ?_⟩
  · rw [hget]
    by_cases h1 : (dbRun qb).length > 1
    · rw [if_pos h1]
    · rw [if_neg h1]
      cases dbRun qb with
      | nil => rfl
      | cons x rest => rfl
  · intro hlen
    rw [hget, if_pos (by omega)]
  · intro hnil
    rw [hget, hnil]
    rfl
  · intro x hx
    rw [hget, hx]
    rfl

/-- The node set returned by NodeSet._get is the receiver mutated by the
filter call and the limit assignment, whatever the compilation and the
execution collaborator do. -/
theorem underscore_get_fst {α : Type} (sch : Schema) (dbRun : QB → List α) (ns : NS)
    (limit : Option Nat) (kwargs : List (String × PValue)) (hl : optNatTruthy limit = true) :
    (NS._get sch dbRun ns limit kwargs).1 = { ns.filter [] kwargs with limit := limit } := by
  rw [NS._get, if_pos hl]
  split
  · rfl
  · rfl

/-- C10: get, get_or_none, first and first_or_none with filter keyword
arguments permanently mutate the node set they are called on: the
returned set carries the AND-combined filter tree and the overwritten
limit (2 for the get family, 1 for the first family), and every
subsequent successful compilation of that set carries that limit in its
AST (the where clause of that compilation is read from the mutated
filter tree, see build_source). -/
theorem C10_terminal_ops_mutate_nodeset {α : Type} (sch : Schema) (dbRun : QB → List α)
    (ns : NS) (kwargs : List (String × PValue)) (hkw : kwargs ≠ []) :
    (NS.get sch dbRun ns kwargs).1 = { ns.filter [] kwargs with limit := some 2 } ∧
    (NS.get_or_none sch dbRun ns kwargs).1 = { ns.filter [] kwargs with limit := some 2 } ∧
    (NS.first sch dbRun ns kwargs).1 = { ns.filter [] kwargs with limit := some 1 } ∧
    (NS.first_or_none sch dbRun ns kwargs).1 = { ns.filter [] kwargs with limit := some 1 } ∧
    (ns.filter [] kwargs).q_filters = qCombine ns.q_filters [] kwargs ∧
    (∀ qb : QB, build_ast sch { ns.filter [] kwargs with limit := some 2 } false = (qb, .ok ()) →
      qb.ast.limit = some 2) ∧
    (∀ qb : QB, build_ast sch { ns.filter [] kwargs with limit := some 1 } false = (qb, .ok ()) →
      qb.ast.limit = some 1) := by
  have hfil : (ns.filter [] kwargs).q_filters = qCombine ns.q_filters [] kwargs := by
    rw [NS.filter, if_pos]
    simp [List.isEmpty_iff, hkw]
  have hg : (NS.get sch dbRun ns kwargs).1 = { ns.filter [] kwargs with limit := some 2 } := by
    have hfst2 := underscore_get_fst sch dbRun ns (some 2) kwargs (by decide)
    rw [NS.get]
    generalize hgen : NS._get sch dbRun ns (some 2) kwargs = p
    rw [hgen] at hfst2
    obtain ⟨ns2, e⟩ := p
    cases e with
    | error err => exact hfst2
    | ok result =>
        cases result with
        | nil => exact hfst2
        | cons x rest =>
            simp only [List.length_cons]
            split
            · exact hfst2
            · exact hfst2
  have hf : (NS.first sch dbRun ns kwargs).1 = { ns.filter [] kwargs with limit := some 1 } := by
    have hfst1 := underscore_get_fst sch dbRun ns (some 1) kwargs (by decide)
    rw [NS.first]
    generalize hgen : NS._get sch dbRun ns (some 1) kwargs = p
    rw [hgen] at hfst1
    obtain ⟨ns1, e⟩ := p
    cases e with
    | error err => exact hfst1
    | ok result =>
        cases result with
        | nil => exact hfst1
        | cons x rest => exact hfst1
  refine ⟨hg, ?_, hf, ?_, hfil, ?_, ?_⟩
  · rw [NS.get_or_none]
    generalize hgen : NS.get sch dbRun ns kwargs = p at hg
    obtain ⟨ns2, e⟩ := p
    cases e with
    | ok x => exact hg
    | error err =>
        cases err with
        | multipleNodesReturned => exact hg
        | doesNotExist => exact hg
        | pyErr perr => exact hg
  · rw [NS.first_or_none]
    generalize hgen : NS.first sch dbRun ns kwargs = p at hf
    obtain ⟨ns1, e⟩ := p
    cases e with
    | ok x => exact hf
    | error err =>
        cases err with
        | multipleNodesReturned => exact hf
        | doesNotExist => exact hf
        | pyErr perr => exact hf
  · intro qb h
    rw [(build_ast_ok_pagination h).1]
  · intro qb h
    rw [(build_ast_ok_pagination h).1]

/-- Witness for C5: with the concrete Person schema, get() against a
collaborator returning two rows fails with the multiple-results error,
against zero rows fails with the not-found error, and against one row
returns its sole value; the compiled AST carries limit 2. -/
theorem C5_get_limit_two_and_outcomes_witness :
    (NS.get schPerson (fun _ => [10, 11]) nsPerson []).2 = .error .multipleNodesReturned ∧
    (NS.get schPerson (fun _ => ([] : List Nat)) nsPerson []).2 = .error .doesNotExist ∧
    (NS.get schPerson (fun _ => [7]) nsPerson []).2 = .ok 7 ∧
    qbPersonLimit2.ast.limit = some 2 := by
  have h1 := C5_get_limit_two_and_outcomes schPerson (fun _ => [10, 11]) nsPerson
    [] qbPersonLimit2 rfl
  have h2 := C5_get_limit_two_and_outcomes schPerson (fun _ => ([] : List Nat)) nsPerson
    [] qbPersonLimit2 rfl
  have h3 := C5_get_limit_two_and_outcomes schPerson (fun _ => [7]) nsPerson
    [] qbPersonLimit2 rfl
  exact ⟨h1.2.2.2.1 (by decide), h2.2.2.2.2.1 rfl, h3.2.2.2.2.2 7 rfl, h1.2.1⟩

/-- Witness for C10: get(age=21) and first(age=21) return the Person set
with the AND-combined filter tree and the overwritten limit. -/
theorem C10_terminal_ops_mutate_nodeset_witness :
    (NS.get schPerson (fun _ : QB => [7]) nsPerson [("age", .int 21)]).1 =
      { nsPerson.filter [] [("age", .int 21)] with limit := some 2 } ∧
    (NS.first schPerson (fun _ : QB => [7]) nsPerson [("age", .int 21)]).1 =
      { nsPerson.filter [] [("age", .int 21)] with limit := some 1 } ∧
    (NS.get_or_none schPerson (fun _ : QB => [7]) nsPerson [("age", .int 21)]).1 =
      { nsPerson.filter [] [("age", .int 21)] with limit := some 2 } ∧
    (nsPerson.filter [] [("age", .int 21)]).q_filters =
      qCombine nsPerson.q_filters [] [("age", .int 21)] := by
  have h := C10_terminal_ops_mutate_nodeset schPerson (fun _ : QB => [7]) nsPerson
    [("age", .int 21)] (List.cons_ne_nil _ _)
  exact ⟨h.1, h.2.2.1, h.2.1, h.2.2.2.2.1⟩

theorem strAppend_left_ne_empty (a b : String) (h : a ≠ "") : a ++ b ≠ "" := by
  intro hh
  apply h
  apply string_ext
  have hd := congrArg String.data hh
  rw [String.data_append] at hd
  exact (List.append_eq_nil.mp hd).1

/-- C4: count-mode compilation folds skip and limit into the WITH clause
and omits them from the statement tail, drops order-by and empties the
additional-return list, so the rendered count statement carries each
pagination token exactly once (inside WITH), no ORDER BY, and returns
only the count expression. -/
theorem C4_count_mode_rendering (ast : QueryAST)
    (subqueries : List (String × List String)) (extra : List (String × String))
    (_hpag : (optNatTruthy ast.skip || optNatTruthy ast.limit) = true)
    (hrc : ast.return_clause ≠ some "")
    (hsub : subqueries = []) (hex : extra = []) :
    (count_rewrite ast).order_by = none ∧
    (count_rewrite ast).additional_return = [] ∧
    (count_rewrite ast).is_count = true ∧
    (count_rewrite ast).skip = ast.skip ∧
    (count_rewrite ast).limit = ast.limit ∧
    skipTailPart (count_rewrite ast) = "" ∧
    limitTailPart (count_rewrite ast) = "" ∧
    orderByPart (count_rewrite ast) = "" ∧
    build_query (count_rewrite ast) false subqueries extra =
      lookupPart ast ++ matchPart ast ++ optionalMatchPart ast ++ wherePart ast ++
      (" WITH " ++ ((pyStr ast.return_clause ++
        (if optNatTruthy ast.skip = true then " SKIP " ++ natStr (ast.skip.getD 0) else "")) ++
        (if optNatTruthy ast.limit = true then " LIMIT " ++ natStr (ast.limit.getD 0) else ""))) ++
      " RETURN " ++ ("count(" ++ pyStr ast.return_clause ++ ")") := by
  subst hsub hex
  have hic : (count_rewrite ast).is_count = true := rfl
  have hrcne : pyStr ast.return_clause ≠ "" := by
    cases h : ast.return_clause with
    | none => simp [pyStr, h]
    | some s =>
        simp only [pyStr, h, Option.getD_some]
        exact fun hh => hrc (by rw [h, hh])
  have hwcne : ((pyStr ast.return_clause ++
      (if optNatTruthy ast.skip = true then " SKIP " ++ natStr (ast.skip.getD 0) else "")) ++
      (if optNatTruthy ast.limit = true then " LIMIT " ++ natStr (ast.limit.getD 0) else "")) ≠ "" :=
    strAppend_left_ne_empty _ _ (strAppend_left_ne_empty _ _ hrcne)
  have hst : skipTailPart (count_rewrite ast) = "" := by
    rw [skipTailPart, hic]
    simp
  have hlt : limitTailPart (count_rewrite ast) = "" := by
    rw [limitTailPart, hic]
    simp
  have hob : orderByPart (count_rewrite ast) = "" := rfl
  have hwcl : (count_rewrite ast).with_clause = some ((pyStr ast.return_clause ++
      (if optNatTruthy ast.skip = true then " SKIP " ++ natStr (ast.skip.getD 0) else "")) ++
      (if optNatTruthy ast.limit = true then " LIMIT " ++ natStr (ast.limit.getD 0) else "")) := by
    rw [count_rewrite]
    by_cases h1 : optNatTruthy ast.skip = true <;> by_cases h2 : optNatTruthy ast.limit = true <;>
      simp [h1, h2, String.append_assoc]
  have hwp : withPart (count_rewrite ast) = " WITH " ++ ((pyStr ast.return_clause ++
      (if optNatTruthy ast.skip = true then " SKIP " ++ natStr (ast.skip.getD 0) else "")) ++
      (if optNatTruthy ast.limit = true then " LIMIT " ++ natStr (ast.limit.getD 0) else "")) := by
    rw [withPart, hwcl]
    rw [if_pos (by simpa [optStrTruthy] using hwcne)]
    rfl
  have hcnt : ("count(" ++ pyStr ast.return_clause ++ ")") ≠ "" :=
    strAppend_left_ne_empty _ _ (strAppend_left_ne_empty _ _ (by decide))
  have hrc2 : (count_rewrite ast).return_clause =
      some ("count(" ++ pyStr ast.return_clause ++ ")") := rfl
  have hri : returnedItems (count_rewrite ast) false [] [] =
      ["count(" ++ pyStr ast.return_clause ++ ")"] := by
    rw [returnedItems, hrc2]
    have hc1 : (optStrTruthy (some ("count(" ++ pyStr ast.return_clause ++ ")")) && !false) = true := by
      simp [optStrTruthy, hcnt]
    rw [if_pos hc1]
    have hadd : (count_rewrite ast).additional_return = [] := rfl
    rw [hadd]
    simp
  refine ⟨rfl, rfl, hic, rfl, rfl, hst, hlt, hob, ?_⟩
  rw [build_query, hri, hst, hlt, hob, hwp]
  have hsq : subqueriesText (count_rewrite ast) [] = "" := rfl
  rw [hsq]
  have hlk : lookupPart (count_rewrite ast) = lookupPart ast := rfl
  have hmp : matchPart (count_rewrite ast) = matchPart ast := rfl
  have hop : optionalMatchPart (count_rewrite ast) = optionalMatchPart ast := rfl
  have hwh : wherePart (count_rewrite ast) = wherePart ast := rfl
  rw [hlk, hmp, hop, hwh]
  have hj : joinStr ", " ["count(" ++ pyStr ast.return_clause ++ ")"] =
      "count(" ++ pyStr ast.return_clause ++ ")" := rfl
  rw [hj]
  simp [String.append_assoc]

/-- Witness for C4: on a concrete AST with skip 5, limit 10, an order-by
and an additional return, the count rendering folds SKIP/LIMIT into WITH
once, emits no tail SKIP/LIMIT, no ORDER BY and no additional return. -/
theorem C4_count_mode_rendering_witness :
    (count_rewrite astC4).order_by = none ∧
    (count_rewrite astC4).additional_return = [] ∧
    skipTailPart (count_rewrite astC4) = "" ∧
    limitTailPart (count_rewrite astC4) = "" ∧
    orderByPart (count_rewrite astC4) = "" ∧
    build_query (count_rewrite astC4) false [] [] =
      " MATCH (person:Person) WITH person SKIP 5 LIMIT 10 RETURN count(person)" := by
  have h := C4_count_mode_rendering astC4 [] [] (by decide) (by decide) rfl rfl
  refine ⟨h.1, h.2.1, h.2.2.2.2.2.1, h.2.2.2.2.2.2.1, h.2.2.2.2.2.2.2.1, ?_⟩
  rw [h.2.2.2.2.2.2.2.2]
  rfl

/-! ### Basic lemmas about the path-resolution helpers -/

theorem splitUU_ne_nil : ∀ (l acc : List Char), splitUU l acc ≠ []
  | [], acc => by simp [splitUU]
  | [c], acc => by simp [splitUU]
  | c1 :: c2 :: cs, acc => by
      rw [splitUU]
      split
      · simp
      · exact splitUU_ne_nil (c2 :: cs) (c1 :: acc)

theorem pySplitUU_ne_nil (s : String) : pySplitUU s ≠ [] := by
  rw [pySplitUU]
  simp [splitUU_ne_nil]

theorem resolveParts_length (sch : Schema) : ∀ (parts : List String) (c : NClass)
    (hops : List (String × RelDef)), resolveParts sch c parts = some hops →
    hops.length = parts.length := by
  intro parts
  induction parts with
  | nil => intro c hops h; simp [resolveParts] at h; simp [← h]
  | cons p ps ih =>
      intro c hops h
      rw [resolveParts] at h
      cases hr : sch.rels c p with
      | none => rw [hr] at h; simp at h
      | some rd =>
          simp only [hr, Option.map_eq_some'] at h
          obtain ⟨rest, hrest, hcons⟩ := h
          rw [← hcons]
          simp [ih rd.node_class rest hrest]

theorem travNames_length (aliasOpt : Option String) :
    ∀ (hops : List (String × RelDef)) (reg : List (String × Nat)),
      (travNames aliasOpt reg hops).length = hops.length := by
  intro hops
  induction hops with
  | nil => intro reg; rfl
  | cons h hs ih => intro reg; simp [travNames, ih]

theorem travRelIdents_length : ∀ (n c : Nat), (travRelIdents c n).length = n := by
  intro n
  induction n with
  | zero => intro c; rfl
  | succ m ih => intro c; simp [travRelIdents, ih]

theorem travSegs_length : ∀ (hops : List (String × RelDef)) (nms ris : List String),
    nms.length = hops.length → ris.length = hops.length →
    (travSegs hops nms ris).length = hops.length := by
  intro hops
  induction hops with
  | nil => intro nms ris _ _; rfl
  | cons h hs ih =>
      intro nms ris h1 h2
      cases nms with
      | nil => simp at h1
      | cons nm nms =>
          cases ris with
          | nil => simp at h2
          | cons ri ris =>
              simp only [travSegs, List.length_cons]
              simp at h1 h2
              rw [ih nms ris h1 h2]

/-! ### The _rel_helper chaining shape -/

theorem getLast_some_ne_nil {l : List Char} {c : Char} (h : l.getLast? = some c) : l ≠ [] := by
  intro hl
  rw [hl] at h
  simp at h

theorem strAppend_getLast (a b : String) (h : b.data ≠ []) :
    (a ++ b).data.getLast? = b.data.getLast? := by
  rw [String.data_append]
  exact List.getLast?_append_of_ne_nil _ h

theorem parenWrap_getLast (s : String) : (parenWrap s).data.getLast? = some ')' := by
  rw [parenWrap]
  split
  · assumption
  · rw [strAppend_getLast _ ")" (by decide)]
    rfl

theorem parenWrap_of_last {s : String} (h : s.data.getLast? = some ')') : parenWrap s = s := by
  rw [parenWrap, if_pos h]

theorem hopSegment_getLast (ri nm : String) (rd : RelDef) :
    (hopSegment ri nm rd).data.getLast? = some ')' := by
  rw [hopSegment, strAppend_getLast _ _ (getLast_some_ne_nil (parenWrap_getLast _))]
  exact parenWrap_getLast _

/-- _rel_helper at the loop's call sites (explicit relationship
identifier, explicit direction, no relationship properties) is the
wrapped left side followed by the hop segment. -/
theorem rel_helper_eq (lhs rhs ri : String) (rt : Option String) (d : Int) :
    _rel_helper lhs rhs (some ri) rt (some d) [] =
      parenWrap lhs ++ (dirText d (relDefText ri rt) ++ parenWrap rhs) := by
  cases rt with
  | none =>
      simp only [_rel_helper, dirText, relDefText, parenWrap, Option.some.injEq, ne_eq,
        not_true_eq_false, if_false, Option.getD_some, String.append_empty, String.append_assoc]
  | some r =>
      simp only [_rel_helper, dirText, relDefText, parenWrap, Option.some.injEq, ne_eq,
        not_true_eq_false, if_false, Option.getD_some, String.append_empty, String.append_assoc]

/-! ### Field preservation of _additional_return and one loop step -/

theorem addret_node_counters (qb : QB) (n : String) :
    (_additional_return qb n).node_counters = qb.node_counters := by
  rw [_additional_return]; split <;> rfl

theorem addret_ident_count (qb : QB) (n : String) :
    (_additional_return qb n).ident_count = qb.ident_count := by
  rw [_additional_return]; split <;> rfl

theorem addret_matchL (qb : QB) (n : String) :
    (_additional_return qb n).ast.matchL = qb.ast.matchL := by
  rw [_additional_return]; split <;> rfl

theorem addret_optional_match (qb : QB) (n : String) :
    (_additional_return qb n).ast.optional_match = qb.ast.optional_match := by
  rw [_additional_return]; split <;> rfl

theorem addret_subquery_context (qb : QB) (n : String) :
    (_additional_return qb n).subquery_context = qb.subquery_context := by
  rw [_additional_return]; split <;> rfl

theorem stepQB_node_counters (relation : Relation) (isLast : Bool) (part : String)
    (rd : RelDef) (qb : QB) :
    (stepQB relation isLast part rd qb).node_counters =
      aset qb.node_counters (hopKey (part, rd)) (cntOf qb.node_counters (hopKey (part, rd)) + 1) := by
  simp only [stepQB, apply_ite QB.node_counters, addret_node_counters, ite_self]

theorem stepQB_ident_count (relation : Relation) (isLast : Bool) (part : String)
    (rd : RelDef) (qb : QB) :
    (stepQB relation isLast part rd qb).ident_count = qb.ident_count + 1 := by
  simp only [stepQB, apply_ite QB.ident_count, addret_ident_count, ite_self]

theorem stepQB_matchL (relation : Relation) (isLast : Bool) (part : String)
    (rd : RelDef) (qb : QB) :
    (stepQB relation isLast part rd qb).ast.matchL = qb.ast.matchL := by
  simp only [stepQB, apply_ite (fun q : QB => q.ast.matchL), addret_matchL, ite_self]

theorem stepQB_optional_match (relation : Relation) (isLast : Bool) (part : String)
    (rd : RelDef) (qb : QB) :
    (stepQB relation isLast part rd qb).ast.optional_match = qb.ast.optional_match := by
  simp only [stepQB, apply_ite (fun q : QB => q.ast.optional_match), addret_optional_match, ite_self]

theorem stepQB_subquery_context (relation : Relation) (isLast : Bool) (part : String)
    (rd : RelDef) (qb : QB) :
    (stepQB relation isLast part rd qb).subquery_context = qb.subquery_context := by
  simp only [stepQB, apply_ite QB.subquery_context, addret_subquery_context, ite_self]

/-- Characterisation of one non-initial loop step (the chained pattern
so far ends in a closing parenthesis): the step appends exactly one hop
segment to the pattern, returns the hop node name and the next source
class, and moves the builder to stepQB. -/
theorem btfp_step_spec (sch : Schema) (relation : Relation) (part : String) (isLast : Bool)
    (index : Nat) (stmt : String) (src : NClass) (qb : QB) (rd : RelDef)
    (hrel : sch.rels src part = some rd) (hstmt : stmt.data.getLast? = some ')') :
    btfp_step sch relation part isLast index stmt src qb =
      some (stepQB relation isLast part rd qb,
        stmt ++ hopSegment ("r" ++ natStr (qb.ident_count + 1))
          (stepName relation isLast qb.node_counters part rd) rd,
        stepName relation isLast qb.node_counters part rd,
        rd.node_class) := by
  have hne : stmt ≠ "" := by
    intro hh
    rw [hh] at hstmt
    simp at hstmt
  simp only [btfp_step, hrel, if_neg hne, create_ident, rel_helper_eq,
    parenWrap_of_last hstmt, hopSegment, stepQB, stepName, cntOf, hopKey,
    apply_ite QB.ident_count, addret_ident_count, ite_self]

theorem stepQB0_node_counters (relation : Relation) (isLast : Bool) (part : String)
    (rd : RelDef) (src : NClass) (qb : QB) :
    (stepQB0 relation isLast part rd src qb).node_counters =
      aset qb.node_counters (hopKey (part, rd)) (cntOf qb.node_counters (hopKey (part, rd)) + 1) := by
  simp only [stepQB0, apply_ite QB.node_counters, addret_node_counters, ite_self]

theorem stepQB0_ident_count (relation : Relation) (isLast : Bool) (part : String)
    (rd : RelDef) (src : NClass) (qb : QB) :
    (stepQB0 relation isLast part rd src qb).ident_count = qb.ident_count + 1 := by
  simp only [stepQB0, apply_ite QB.ident_count, addret_ident_count, ite_self]

theorem stepQB0_matchL (relation : Relation) (isLast : Bool) (part : String)
    (rd : RelDef) (src : NClass) (qb : QB) :
    (stepQB0 relation isLast part rd src qb).ast.matchL = qb.ast.matchL := by
  simp only [stepQB0, apply_ite (fun q : QB => q.ast.matchL), addret_matchL, ite_self]

theorem stepQB0_optional_match (relation : Relation) (isLast : Bool) (part : String)
    (rd : RelDef) (src : NClass) (qb : QB) :
    (stepQB0 relation isLast part rd src qb).ast.optional_match = qb.ast.optional_match := by
  simp only [stepQB0, apply_ite (fun q : QB => q.ast.optional_match), addret_optional_match, ite_self]

/-- Characterisation of the first loop step (index 0, empty pattern so
far): the emitted pattern is the wrapped root identifier followed by the
first hop segment. -/
theorem btfp_step_first (sch : Schema) (relation : Relation) (part : String) (isLast : Bool)
    (src : NClass) (qb : QB) (rd : RelDef) (hrel : sch.rels src part = some rd) :
    btfp_step sch relation part isLast 0 "" src qb =
      some (stepQB0 relation isLast part rd src qb,
        parenWrap (rootIdent src qb.subquery_context) ++
          hopSegment ("r" ++ natStr (qb.ident_count + 1))
            (stepName relation isLast qb.node_counters part rd) rd,
        stepName relation isLast qb.node_counters part rd,
        rd.node_class) := by
  simp only [btfp_step, hrel, if_pos rfl, ite_true, create_ident, rel_helper_eq,
    hopSegment, stepQB0, stepName, rootIdent, cntOf, hopKey,
    apply_ite QB.ident_count, addret_ident_count,
    apply_ite QB.subquery_context, addret_subquery_context, ite_self]

theorem joinStr_empty_cons (s : String) (l : List String) :
    joinStr "" (s :: l) = s ++ joinStr "" l := by
  cases l with
  | nil => simp [joinStr, String.append_empty]
  | cons t ts => simp [joinStr, String.append_empty]

theorem getLastD_cons_str (a d : String) (l : List String) :
    (a :: l).getLastD d = l.getLastD a := by
  cases l <;> simp [List.getLastD]

/-- Characterisation of the loop over the remaining parts, starting
from a chained pattern that ends in a closing parenthesis: the loop
succeeds, returns the last generated node name, and appends exactly ONE
pattern fragment (the whole chain) to the match list, or to the
optional-match list for an optional relation. -/
theorem btfp_loop_spec (sch : Schema) (relation : Relation) :
    ∀ (parts : List String) (hops : List (String × RelDef)) (index : Nat) (stmt : String)
      (src : NClass) (qb : QB) (last : String),
      resolveParts sch src parts = some hops →
      stmt.data.getLast? = some ')' →
      ∃ qb2 : QB,
        build_traversal_from_path_loop sch relation parts index stmt src qb last =
          some (qb2, (travNames relation.aliasName qb.node_counters hops).getLastD last) ∧
        qb2.ast.matchL =
          (if relation.optional then qb.ast.matchL
           else qb.ast.matchL ++
             [stmt ++ joinStr "" (travSegs hops
                (travNames relation.aliasName qb.node_counters hops)
                (travRelIdents qb.ident_count hops.length))]) ∧
        qb2.ast.optional_match =
          (if relation.optional then qb.ast.optional_match ++
             [stmt ++ joinStr "" (travSegs hops
                (travNames relation.aliasName qb.node_counters hops)
                (travRelIdents qb.ident_count hops.length))]
           else qb.ast.optional_match) := by
  intro parts
  induction parts with
  | nil =>
      intro hops index stmt src qb last hres hstmt
      simp only [resolveParts, Option.some.injEq] at hres
      subst hres
      refine ⟨_, rfl, ?_, ?_⟩
      · cases hopt : relation.optional <;>
          simp [build_traversal_from_path_loop, hopt, travSegs, travNames, joinStr,
            String.append_empty]
      · cases hopt : relation.optional <;>
          simp [build_traversal_from_path_loop, hopt, travSegs, travNames, joinStr,
            String.append_empty]
  | cons p rest ih =>
      intro hops index stmt src qb last hres hstmt
      rw [resolveParts] at hres
      cases hrel : sch.rels src p with
      | none => rw [hrel] at hres; simp at hres
      | some rd =>
          rw [hrel] at hres
          simp only [Option.map_eq_some'] at hres
          obtain ⟨hops2, hres2, hcons⟩ := hres
          subst hcons
          have hlen := resolveParts_length sch rest rd.node_class hops2 hres2
          have hie : rest.isEmpty = hops2.isEmpty := by
            cases rest <;> cases hops2 <;> simp_all
          have hnm : stepName relation rest.isEmpty qb.node_counters p rd =
              (if hops2.isEmpty && relation.aliasName.isSome then relation.aliasName.getD ""
               else pyLower rd.node_class.label ++ "_" ++ p ++ "_" ++
                 natStr (cntOf qb.node_counters (hopKey (p, rd)) + 1)) := by
            rw [stepName, hie]
          have hstmt2 : (stmt ++ hopSegment ("r" ++ natStr (qb.ident_count + 1))
              (stepName relation rest.isEmpty qb.node_counters p rd) rd).data.getLast? =
              some ')' := by
            rw [strAppend_getLast _ _ (getLast_some_ne_nil (hopSegment_getLast _ _ _))]
            exact hopSegment_getLast _ _ _
          obtain ⟨qb2, hloop, hm, ho⟩ := ih hops2 (index + 1)
            (stmt ++ hopSegment ("r" ++ natStr (qb.ident_count + 1))
              (stepName relation rest.isEmpty qb.node_counters p rd) rd)
            rd.node_class (stepQB relation rest.isEmpty p rd qb)
            (stepName relation rest.isEmpty qb.node_counters p rd) hres2 hstmt2
          refine ⟨qb2, ?_, ?_, ?_⟩
          · rw [build_traversal_from_path_loop]
            simp only [btfp_step_spec sch relation p rest.isEmpty index stmt src qb rd hrel hstmt]
            rw [hloop]
            simp only [travNames, getLastD_cons_str, stepQB_node_counters, ← hnm]
          · rw [hm]
            cases hopt : relation.optional
            · simp only [Bool.false_eq_true, if_false, stepQB_matchL, stepQB_node_counters,
                stepQB_ident_count, travNames, travSegs, travRelIdents, List.length_cons,
                joinStr_empty_cons, hnm, String.append_assoc]
            · simp only [if_true, stepQB_matchL]
          · rw [ho]
            cases hopt : relation.optional
            · simp only [Bool.false_eq_true, if_false, stepQB_optional_match]
            · simp only [if_true, stepQB_optional_match, stepQB_node_counters,
                stepQB_ident_count, travNames, travSegs, travRelIdents, List.length_cons,
                joinStr_empty_cons, hnm, String.append_assoc]

/-- Characterisation of build_traversal_from_path on a resolvable path:
it succeeds, returns the last generated node name, and appends exactly
ONE pattern fragment (the root pattern followed by all chained hop
segments) to the match list, or to the optional-match list for an
optional relation. -/
theorem btfp_spec (sch : Schema) (relation : Relation) (src : NClass) (qb : QB)
    (hops : List (String × RelDef))
    (hres : resolveParts sch src (pySplitUU relation.path) = some hops) :
    ∃ qb2 : QB,
      build_traversal_from_path sch qb relation src =
        some (qb2, (travNames relation.aliasName qb.node_counters hops).getLastD "") ∧
      qb2.ast.matchL =
        (if relation.optional then qb.ast.matchL
         else qb.ast.matchL ++
           [travChain (rootIdent src qb.subquery_context)
              (travSegs hops (travNames relation.aliasName qb.node_counters hops)
                (travRelIdents qb.ident_count hops.length))]) ∧
      qb2.ast.optional_match =
        (if relation.optional then qb.ast.optional_match ++
           [travChain (rootIdent src qb.subquery_context)
              (travSegs hops (travNames relation.aliasName qb.node_counters hops)
                (travRelIdents qb.ident_count hops.length))]
         else qb.ast.optional_match) := by
  rw [build_traversal_from_path]
  cases hp : pySplitUU relation.path with
  | nil => exact absurd hp (pySplitUU_ne_nil _)
  | cons p rest =>
      rw [hp] at hres
      rw [resolveParts] at hres
      cases hrel : sch.rels src p with
      | none => rw [hrel] at hres; simp at hres
      | some rd =>
          rw [hrel] at hres
          simp only [Option.map_eq_some'] at hres
          obtain ⟨hops2, hres2, hcons⟩ := hres
          subst hcons
          have hlen := resolveParts_length sch rest rd.node_class hops2 hres2
          have hie : rest.isEmpty = hops2.isEmpty := by
            cases rest <;> cases hops2 <;> simp_all
          have hnm : stepName relation rest.isEmpty qb.node_counters p rd =
              (if hops2.isEmpty && relation.aliasName.isSome then relation.aliasName.getD ""
               else pyLower rd.node_class.label ++ "_" ++ p ++ "_" ++
                 natStr (cntOf qb.node_counters (hopKey (p, rd)) + 1)) := by
            rw [stepName, hie]
          have hstmt2 : (parenWrap (rootIdent src qb.subquery_context) ++
              hopSegment ("r" ++ natStr (qb.ident_count + 1))
                (stepName relation rest.isEmpty qb.node_counters p rd) rd).data.getLast? =
              some ')' := by
            rw [strAppend_getLast _ _ (getLast_some_ne_nil (hopSegment_getLast _ _ _))]
            exact hopSegment_getLast _ _ _
          obtain ⟨qb2, hloop, hm, ho⟩ := btfp_loop_spec sch relation rest hops2 1
            (parenWrap (rootIdent src qb.subquery_context) ++
              hopSegment ("r" ++ natStr (qb.ident_count + 1))
                (stepName relation rest.isEmpty qb.node_counters p rd) rd)
            rd.node_class (stepQB0 relation rest.isEmpty p rd src qb)
            (stepName relation rest.isEmpty qb.node_counters p rd) hres2 hstmt2
          refine ⟨qb2, ?_, ?_, ?_⟩
          · rw [build_traversal_from_path_loop]
            simp only [btfp_step_first sch relation p rest.isEmpty src qb rd hrel]
            rw [hloop]
            simp only [travNames, getLastD_cons_str, stepQB0_node_counters, hnm]
          · rw [hm]
            cases hopt : relation.optional
            · simp only [Bool.false_eq_true, if_false, stepQB0_matchL, stepQB0_node_counters,
                stepQB0_ident_count, travNames, travSegs, travRelIdents, List.length_cons,
                travChain, joinStr_empty_cons, hnm, String.append_assoc]
            · simp only [if_true, stepQB0_matchL]
          · rw [ho]
            cases hopt : relation.optional
            · simp only [Bool.false_eq_true, if_false, stepQB0_optional_match]
            · simp only [if_true, stepQB0_optional_match, stepQB0_node_counters,
                stepQB0_ident_count, travNames, travSegs, travRelIdents, List.length_cons,
                travChain, joinStr_empty_cons, hnm, String.append_assoc]

/-! ### Uniqueness of the generated identifiers -/

theorem cntOf_le_bump (reg : List (String × Nat)) (k k0 : String) :
    cntOf reg k ≤ cntOf (aset reg k0 (cntOf reg k0 + 1)) k := by
  by_cases h : k = k0
  · subst h
    rw [cntOf_aset_self]
    omega
  · rw [cntOf_aset_ne _ _ _ _ h]

/-- Data of a generated hop node name label ++ "_" ++ part ++ "_" ++ counter. -/
theorem travName_data (L p : String) (n : Nat) :
    (L ++ "_" ++ p ++ "_" ++ natStr n).data =
      L.data ++ '_' :: (p.data ++ '_' :: (natStr n).data) := by
  simp only [String.data_append, List.append_assoc]
  rfl

/-- A hop node name with underscore-free label and part determines all
three components. -/
theorem travName_decomp {L1 p1 L2 p2 : String} {n1 n2 : Nat}
    (hL1 : ∀ c ∈ L1.data, c ≠ '_') (hL2 : ∀ c ∈ L2.data, c ≠ '_')
    (hp1 : ∀ c ∈ p1.data, c ≠ '_') (hp2 : ∀ c ∈ p2.data, c ≠ '_')
    (h : L1 ++ "_" ++ p1 ++ "_" ++ natStr n1 = L2 ++ "_" ++ p2 ++ "_" ++ natStr n2) :
    L1 = L2 ∧ p1 = p2 ∧ n1 = n2 := by
  have hd : L1.data ++ '_' :: (p1.data ++ '_' :: (natStr n1).data) =
      L2.data ++ '_' :: (p2.data ++ '_' :: (natStr n2).data) := by
    have := congrArg String.data h
    rwa [travName_data, travName_data] at this
  have h1 := marker_split_left _ _ _ _ hL1 hL2 hd
  have h2 := marker_split_left _ _ _ _ hp1 hp2 h1.2
  exact ⟨string_ext h1.1, string_ext h2.1, natStr_inj (string_ext h2.2)⟩

/-- Every name in travNames (without alias) is the hop node name of some
hop, with a counter strictly above that hop key's entry in the starting
registry. -/
theorem travNames_mem : ∀ (hops : List (String × RelDef)) (reg : List (String × Nat))
    (y : String), y ∈ travNames none reg hops →
    ∃ h, h ∈ hops ∧ ∃ n, y = pyLower h.2.node_class.label ++ "_" ++ h.1 ++ "_" ++ natStr n ∧
      cntOf reg (hopKey h) < n
  | [], reg, y => by simp [travNames]
  | h0 :: hs, reg, y => by
      intro hy
      rw [travNames] at hy
      simp only [Option.isSome_none, Bool.and_false, Bool.false_eq_true, if_false] at hy
      rcases List.mem_cons.mp hy with h | h
      · exact ⟨h0, List.mem_cons_self _ _, cntOf reg (hopKey h0) + 1, h, Nat.lt_succ_self _⟩
      · obtain ⟨h1, hmem, n, hy2, hlt⟩ := travNames_mem hs _ y h
        exact ⟨h1, List.mem_cons_of_mem _ hmem, n, hy2,
          lt_of_le_of_lt (cntOf_le_bump reg (hopKey h1) (hopKey h0)) hlt⟩

/-- With underscore-free labels and parts, and lowercased labels
determining the hop-key class component, the generated hop node names
are pairwise distinct (the per-key counters strictly increase). -/
theorem travNames_pairwise :
    ∀ (hops : List (String × RelDef)),
      (∀ h ∈ hops, (∀ c ∈ (pyLower h.2.node_class.label).data, c ≠ '_') ∧
        (∀ c ∈ h.1.data, c ≠ '_')) →
      (∀ h1, h1 ∈ hops → ∀ h2, h2 ∈ hops →
        pyLower h1.2.node_class.label = pyLower h2.2.node_class.label →
        h1.2.node_class.clsRepr = h2.2.node_class.clsRepr) →
      ∀ reg, (travNames none reg hops).Pairwise (fun a b => a ≠ b)
  | [], _, _ => by simp [travNames]
  | h0 :: hs, hhops, hinj => by
      intro reg
      rw [travNames]
      simp only [Option.isSome_none, Bool.and_false, Bool.false_eq_true, if_false]
      refine List.Pairwise.cons ?_ ?_
      · intro y hy heq
        obtain ⟨h1, hmem, n, hy2, hlt⟩ := travNames_mem hs _ y hy
        rw [← heq] at hy2
        have hdec := travName_decomp (hhops h0 (List.mem_cons_self _ _)).1
          (hhops h1 (List.mem_cons_of_mem _ hmem)).1
          (hhops h0 (List.mem_cons_self _ _)).2
          (hhops h1 (List.mem_cons_of_mem _ hmem)).2 hy2
        have hkey : hopKey h1 = hopKey h0 := by
          rw [hopKey, hopKey,
            hinj h1 (List.mem_cons_of_mem _ hmem) h0 (List.mem_cons_self _ _) hdec.1.symm,
            hdec.2.1]
        rw [hkey, cntOf_aset_self] at hlt
        omega
      · exact travNames_pairwise hs
          (fun h hm => hhops h (List.mem_cons_of_mem _ hm))
          (fun h1 hm1 h2 hm2 => hinj h1 (List.mem_cons_of_mem _ hm1) h2 (List.mem_cons_of_mem _ hm2))
          _

theorem rStr_inj {a b : Nat} (h : "r" ++ natStr a = "r" ++ natStr b) : a = b := by
  have hd := congrArg String.data h
  rw [String.data_append, String.data_append] at hd
  have hr : ("r" : String).data = ['r'] := rfl
  rw [hr] at hd
  simp only [List.singleton_append, List.cons.injEq] at hd
  exact natStr_inj (string_ext hd.2)

theorem travRelIdents_mem : ∀ (n c : Nat) (y : String), y ∈ travRelIdents c n →
    ∃ k, c < k ∧ y = "r" ++ natStr k
  | 0, c, y => by simp [travRelIdents]
  | n + 1, c, y => by
      intro hy
      rw [travRelIdents] at hy
      rcases List.mem_cons.mp hy with h | h
      · exact ⟨c + 1, Nat.lt_succ_self _, h⟩
      · obtain ⟨k, hk, hy2⟩ := travRelIdents_mem n (c + 1) y h
        exact ⟨k, by omega, hy2⟩

theorem travRelIdents_pairwise : ∀ (n c : Nat),
    (travRelIdents c n).Pairwise (fun a b => a ≠ b)
  | 0, c => by simp [travRelIdents]
  | n + 1, c => by
      rw [travRelIdents]
      refine List.Pairwise.cons ?_ (travRelIdents_pairwise n (c + 1))
      intro y hy heq
      obtain ⟨k, hk, hy2⟩ := travRelIdents_mem n (c + 1) y hy
      rw [← heq] at hy2
      have := rStr_inj hy2
      omega

theorem travName_mem_underscore (L p : String) (n : Nat) :
    '_' ∈ (L ++ "_" ++ p ++ "_" ++ natStr n).data := by
  rw [travName_data]
  simp

theorem rIdent_no_underscore (k : Nat) : '_' ∉ ("r" ++ natStr k).data := by
  rw [String.data_append]
  intro h
  rcases List.mem_append.mp h with h | h
  · have hr : ("r" : String).data = ['r'] := rfl
    rw [hr] at h
    simp at h
  · exact natStr_chars_ne_underscore h rfl

theorem rIdent_has_digit (k : Nat) : ∃ c ∈ ("r" ++ natStr k).data, c.isDigit = true := by
  obtain ⟨c, hc⟩ := List.exists_mem_of_ne_nil _ (natStr_ne_nil k)
  refine ⟨c, ?_, natStr_chars_isDigit hc⟩
  rw [String.data_append]
  exact List.mem_append_right _ hc

/-- All identifiers of one traversal statement — the root node name, the
generated hop node names and the generated relationship identifiers —
are pairwise distinct, provided the lowercased labels and the path parts
contain no underscores and no digits and lowercased labels determine the
hop-key class component. -/
theorem travIdents_pairwise (src : NClass) (hops : List (String × RelDef))
    (reg : List (String × Nat)) (c : Nat)
    (hroot : strNoUD (pyLower src.label))
    (hhops : ∀ h ∈ hops, strNoUD (pyLower h.2.node_class.label) ∧ strNoUD h.1)
    (hinj : ∀ h1, h1 ∈ hops → ∀ h2, h2 ∈ hops →
      pyLower h1.2.node_class.label = pyLower h2.2.node_class.label →
      h1.2.node_class.clsRepr = h2.2.node_class.clsRepr) :
    (pyLower src.label :: (travNames none reg hops ++ travRelIdents c hops.length)).Pairwise
      (fun a b => a ≠ b) := by
  refine List.Pairwise.cons ?_ ?_
  · intro y hy heq
    rcases List.mem_append.mp hy with h | h
    · obtain ⟨h1, hmem, n, hy2, _⟩ := travNames_mem hops reg y h
      rw [← heq] at hy2
      have hu := travName_mem_underscore (pyLower h1.2.node_class.label) h1.1 n
      rw [← hy2] at hu
      exact (hroot '_' hu).1 rfl
    · obtain ⟨k, _, hy2⟩ := travRelIdents_mem hops.length c y h
      rw [← heq] at hy2
      obtain ⟨d, hd, hdig⟩ := rIdent_has_digit k
      rw [← hy2] at hd
      have := (hroot d hd).2
      rw [hdig] at this
      simp at this
  · rw [List.pairwise_append]
    refine ⟨travNames_pairwise hops
        (fun h hm => ⟨fun ch hch => ((hhops h hm).1 ch hch).1, fun ch hch => ((hhops h hm).2 ch hch).1⟩)
        hinj reg,
      travRelIdents_pairwise hops.length c, ?_⟩
    intro a ha b hb heq
    obtain ⟨h1, hmem, n, ha2, _⟩ := travNames_mem hops reg a ha
    obtain ⟨k, _, hb2⟩ := travRelIdents_mem hops.length c b hb
    have hu := travName_mem_underscore (pyLower h1.2.node_class.label) h1.1 n
    rw [← ha2, heq, hb2] at hu
    exact rIdent_no_underscore k hu

/-- C1 (corrected): a resolvable relationship path yields exactly ONE
pattern fragment — the root node pattern followed by all chained hop
segments — appended to the match list (the optional-match list for an
optional relation), not one fragment per hop; each hop segment carries
only its own relationship identifier and node name, the link to the
previous hop being positional chaining; and, provided the lowercased
labels and the path parts contain no underscores or digits, lowercased
labels determine the hop-key class component and no alias is set, the
root name, the hop node names and the relationship identifiers are
pairwise distinct within the statement. -/
theorem C1_traversal_one_fragment_unique_identifiers
    (sch : Schema) (relation : Relation) (src : NClass) (qb : QB)
    (hops : List (String × RelDef))
    (hres : resolveParts sch src (pySplitUU relation.path) = some hops)
    (halias : relation.aliasName = none)
    (hroot : strNoUD (pyLower src.label))
    (hhops : ∀ h ∈ hops, strNoUD (pyLower h.2.node_class.label) ∧ strNoUD h.1)
    (hinj : ∀ h1, h1 ∈ hops → ∀ h2, h2 ∈ hops →
      pyLower h1.2.node_class.label = pyLower h2.2.node_class.label →
      h1.2.node_class.clsRepr = h2.2.node_class.clsRepr) :
    (∃ qb2 : QB,
      build_traversal_from_path sch qb relation src =
        some (qb2, (travNames none qb.node_counters hops).getLastD "") ∧
      qb2.ast.matchL =
        (if relation.optional then qb.ast.matchL
         else qb.ast.matchL ++
           [travChain (rootIdent src qb.subquery_context)
              (travSegs hops (travNames none qb.node_counters hops)
                (travRelIdents qb.ident_count hops.length))]) ∧
      qb2.ast.optional_match =
        (if relation.optional then qb.ast.optional_match ++
           [travChain (rootIdent src qb.subquery_context)
              (travSegs hops (travNames none qb.node_counters hops)
                (travRelIdents qb.ident_count hops.length))]
         else qb.ast.optional_match)) ∧
    (pyLower src.label :: (travNames none qb.node_counters hops ++
       travRelIdents qb.ident_count hops.length)).Pairwise (fun a b => a ≠ b) := by
  constructor
  · have := btfp_spec sch relation src qb hops hres
    rwa [halias] at this
  · exact travIdents_pairwise src hops qb.node_counters qb.ident_count hroot hhops hinj

/-- C1 counterexample to the spec sentence as stated: the two-hop path
orders__items produces ONE match fragment (the whole chained pattern),
not two. -/
theorem C1_counterexample :
    (pySplitUU relShop.path).length = 2 ∧
    ((build_traversal_from_path schShop {} relShop cCustomer).map
      (fun r => (r.1.ast.matchL.length, r.1.ast.optional_match.length))) = some (1, 0) := by
  constructor
  · rfl
  · rfl

theorem C1_traversal_one_fragment_unique_identifiers_witness :
    resolveParts schShop cCustomer (pySplitUU relShop.path) = some hopsShop ∧
    relShop.aliasName = none ∧
    strNoUD (pyLower cCustomer.label) ∧
    (pyLower cCustomer.label :: (travNames none ({} : QB).node_counters hopsShop ++
       travRelIdents ({} : QB).ident_count hopsShop.length)).Pairwise (fun a b => a ≠ b) :=
  ⟨rfl, rfl, by decide,
    (C1_traversal_one_fragment_unique_identifiers schShop relShop cCustomer {} hopsShop
      rfl rfl (by decide) (by decide) (by decide)).2⟩
